import Mathlib

/-!
Verification of the HFT_Rust market-making engine against its specification.

This file shallowly embeds the parts of the Rust source relevant to the
checked properties:

* `src_backup_local/core/orderbook.rs` — the fixed-depth L2 order book
  (`Level`, `Side`, `L2OrderBook`, `L2OrderBook.update`);
* `src/net/framing.rs` — the WebSocket framer (`encode_text_frame`,
  `decode_frame`);
* `src/strategy/market_maker.rs` — the quoting strategy (`MarketMaker` with
  `on_tick`, `on_fill`, `sync_position`, `on_order_cancel`, `reset_order`);
* `src/main.rs` — the venue error-code dispatch of the private-stream and
  trade-stream handlers.

Modelling conventions: `f64` values are modelled as exact rationals (`ℚ`);
`u64`/`usize` as `ℕ`, with an explicit `% 2 ^ 64` at the one place where
wrap-around matters; monotonic `Instant`s as a rational microsecond count
threaded through as an explicit `now` parameter; Rust byte slices as
`List ℕ` of byte values (< 256); a Rust `panic!` (slice split out of
bounds) as an explicit `panic` result constructor.
-/

namespace HFT

/-! ## Order book — src_backup_local/core/orderbook.rs -/

/-- `Side` (orderbook.rs lines 3-7). -/
inductive Side where
  | Buy
  | Sell
deriving DecidableEq, Repr

/-- `Level {price: f64, qty: f64}` (orderbook.rs lines 9-14); `Default` is
`{0.0, 0.0}`, and a zero price denotes an empty slot. -/
structure Level where
  price : ℚ
  qty : ℚ
deriving DecidableEq, Repr

instance : Inhabited Level := ⟨⟨0, 0⟩⟩

/-- First index of the list satisfying `p`: models the Rust
`for i in 0..20 { if cond { ...; return/break } }` scan loops of
`L2OrderBook::update`. -/
def scanIdx (p : α → Bool) : List α → Option Nat
  | [] => none
  | a :: l => if p a then some 0 else (scanIdx p l).map (· + 1)

/-- Insertion at index `i`: together with a final `take` to the original
length this models the shift-right loop of `L2OrderBook::update`
(orderbook.rs lines 85-88 / 100-103), which drops the last slot. -/
def insertAt (i : Nat) (a : α) (l : List α) : List α :=
  l.take i ++ a :: l.drop i

/-- `f64::EPSILON = 2⁻⁵²`, the price-match tolerance of
`L2OrderBook::update` (orderbook.rs line 54). -/
def f64_eps : ℚ := 1 / 2 ^ 52

/-- One side of `L2OrderBook::update` (orderbook.rs lines 46-109).
`better p q` says price `p` sorts strictly before price `q`: `p > q` for
bids (descending), `p < q` for asks (ascending). -/
def updateSide (better : ℚ → ℚ → Bool) (levels : List Level) (price qty : ℚ) :
    List Level :=
  -- lines 53-68: scan for a level whose price differs from `price` by
  -- less than f64::EPSILON
  match scanIdx (fun l => decide (|l.price - price| < f64_eps)) levels with
  | some i =>
    if qty = 0 then
      -- lines 55-61: remove — shift the tail left, clear the last slot
      levels.eraseIdx i ++ [default]
    else
      -- lines 62-65: overwrite the quantity in place
      levels.set i { (levels.getD i default) with qty := qty }
  | none =>
    if qty = 0 then
      -- line 76: removing a non-existent level is a no-op
      levels
    else
      -- lines 78-108: insert at the first empty or worse-priced slot,
      -- shifting the rest right (the last slot falls off)
      match scanIdx (fun l => l.price == 0 || better price l.price) levels with
      | some i => (insertAt i ⟨price, qty⟩ levels).take levels.length
      | none => levels

/-- `L2OrderBook` (orderbook.rs lines 20-24): fixed 20-deep bid/ask arrays,
modelled as lists (length 20 in every state reachable from
`L2OrderBook::new`). -/
structure L2OrderBook where
  bids : List Level
  asks : List Level
deriving DecidableEq, Repr

/-- The `better` comparison of the bid side: strictly descending prices
(orderbook.rs line 83, `price > levels[i].price`). -/
def bidBetter (a b : ℚ) : Bool := decide (a > b)

/-- The `better` comparison of the ask side: strictly ascending prices
(orderbook.rs line 98, `price < levels[i].price`). -/
def askBetter (a b : ℚ) : Bool := decide (a < b)

/-- `L2OrderBook::update` (orderbook.rs lines 46-109). -/
def L2OrderBook.update (book : L2OrderBook) (side : Side) (price qty : ℚ) :
    L2OrderBook :=
  match side with
  | .Buy => { book with bids := updateSide bidBetter book.bids price qty }
  | .Sell => { book with asks := updateSide askBetter book.asks price qty }

/-- `L2OrderBook::new` (orderbook.rs lines 26-38): all slots empty. -/
def L2OrderBook.new : L2OrderBook :=
  { bids := List.replicate 20 default, asks := List.replicate 20 default }

/-- The level array of one side of the book. -/
def L2OrderBook.sideLevels (book : L2OrderBook) : Side → List Level
  | .Buy => book.bids
  | .Sell => book.asks

/-- The sort comparison used for one side of the book. -/
def betterOf : Side → (ℚ → ℚ → Bool)
  | .Buy => bidBetter
  | .Sell => askBetter

/-- The book invariant of the spec, for one side: the occupied slots form a
prefix that is strictly sorted by `better` on prices (hence duplicate-free)
with positive prices and quantities, and the remaining slots all carry the
empty price 0. -/
def SideInv (better : ℚ → ℚ → Bool) (ls : List Level) : Prop :=
  ∃ front back, ls = front ++ back ∧
    front.Pairwise (fun a b => better a.price b.price = true) ∧
    (∀ l ∈ front, 0 < l.price ∧ 0 < l.qty) ∧
    (∀ l ∈ back, l.price = 0)

/-- The full book invariant (spec §3 / §8). -/
def BookInv (book : L2OrderBook) : Prop :=
  SideInv bidBetter book.bids ∧ SideInv askBetter book.asks

/-! ## WebSocket framer — src/net/framing.rs -/

/-- Result of `decode_frame`: `panic` models a Rust slice-split panic,
`err` is `Err(&'static str)`, `needMore` is `Ok(None)`, and
`frame consumed payload` is `Ok(Some((consumed, payload)))`. -/
inductive DecodeResult where
  | panic
  | err (msg : String)
  | needMore
  | frame (consumed : Nat) (payload : List Nat)
deriving DecidableEq, Repr

/-- Rust `slice::split_at_mut` (framing.rs lines 63-64): panics (`none`)
when the split point exceeds the slice length. -/
def split_at_checked (n : Nat) (l : List Nat) : Option (List Nat × List Nat) :=
  if n ≤ l.length then some (l.take n, l.drop n) else none

/-- Big-endian `u16` from two bytes (framing.rs lines 31-32). -/
def be16 (b0 b1 : Nat) : Nat := b0 * 256 + b1

/-- Big-endian `u64` from a list of 8 bytes (framing.rs lines 39-43). -/
def be64 (bs : List Nat) : Nat := bs.foldl (fun acc b => acc * 256 + b) 0

/-- The tail of `decode_frame` after the length-form parsing (framing.rs
lines 47-66): the `usize` total-length addition (hence the `% 2 ^ 64`),
the buffer-length check, and the two slice splits. -/
def decode_payload (buf : List Nat) (header_len payload_len : Nat) : DecodeResult :=
  let total_len := (header_len + payload_len) % 2 ^ 64
  if buf.length < total_len then .needMore
  else
    match split_at_checked header_len buf with
    | none => .panic
    | some (_, remaining) =>
      match split_at_checked payload_len remaining with
      | none => .panic
      | some (payload, _) => .frame total_len payload

/-- `decode_frame` (framing.rs lines 6-67).  The buffer is a list of byte
values (< 256). -/
def decode_frame (buf : List Nat) : DecodeResult :=
  if buf.length < 2 then .needMore
  else
    let second_byte := buf.getD 1 0
    -- lines 18-21: reject masked server frames (mask bit = 0x80)
    if 128 ≤ second_byte then .err "Server sent masked frame (protocol violation)"
    else
      let pl7 := second_byte % 128
      -- lines 26-45: 7-bit, 16-bit and 64-bit length forms
      let hdr : Option (Nat × Nat) :=
        if pl7 = 126 then
          if buf.length < 4 then none
          else some (4, be16 (buf.getD 2 0) (buf.getD 3 0))
        else if pl7 = 127 then
          if buf.length < 10 then none
          else some (10, be64 ((buf.drop 2).take 8))
        else some (2, pl7)
      match hdr with
      | none => .needMore
      | some (header_len, payload_len) => decode_payload buf header_len payload_len

/-- XOR-masking of a payload with the 4-byte mask key, starting at index
`i` (framing.rs lines 103-105). -/
def maskBytes (key : List Nat) : Nat → List Nat → List Nat
  | _, [] => []
  | i, b :: rest => (b ^^^ key.getD (i % 4) 0) :: maskBytes key (i + 1) rest

/-- `encode_text_frame` (framing.rs lines 72-109), modelled as the list of
bytes written to `dst_buf` (the Rust function returns their count and a
too-long payload writes the two header bytes it rejects nothing for; the
`else` branch returns 0 before writing anything beyond byte 0, so the
written prefix that the callers use is empty — we model the returned
prefix). -/
def encode_text_frame (src_payload : List Nat) : List Nat :=
  if src_payload.length < 126 then
    0x81 :: (0x80 ||| src_payload.length) :: 1 :: 2 :: 3 :: 4 ::
      maskBytes [1, 2, 3, 4] 0 src_payload
  else []

/-- Un-masking of a masked client frame, the inverse step named by the
spec's round-trip property: clear the mask bit of byte 1, drop the 4-byte
mask key, and XOR the payload with the key. -/
def unmask_client_frame : List Nat → List Nat
  | b0 :: b1 :: k0 :: k1 :: k2 :: k3 :: rest =>
      b0 :: b1 % 128 :: maskBytes [k0, k1, k2, k3] 0 rest
  | l => l

/-! ## Quoting strategy — src/strategy/market_maker.rs -/

/-- `ActionType` (market_maker.rs lines 4-12). -/
inductive ActionType where
  | CreateOrder (price qty : ℚ) (side : String) (link_id : String)
  | AmendOrder (price qty : ℚ) (side : String) (link_id : String)
  | CancelOrder (link_id : String)
  | ClosePosition (qty : ℚ) (side : String)
  | CancelAll
  | None
deriving DecidableEq, Repr

/-- `Action` (market_maker.rs lines 14-17). -/
structure Action where
  action_type : ActionType
deriving DecidableEq, Repr

/-- `MarketMaker` (market_maker.rs lines 19-41).  `Instant` fields are
rational microsecond counts on an arbitrary monotonic clock. -/
structure MarketMaker where
  target_spread : ℚ
  tick_counter : Nat
  binance_bid : ℚ
  binance_ask : ℚ
  last_update_ts : ℚ
  has_active_buy : Bool
  has_active_sell : Bool
  active_buy_link_id : String
  active_sell_link_id : String
  position : ℚ
  entry_price : ℚ
  last_trade_ts : Option ℚ
  active_buy_price : ℚ
  active_sell_price : ℚ
  last_update_mid : ℚ
  last_tick_arrival_ts : ℚ
  tick_interval_ema : ℚ
  last_exch_ts : Nat
deriving DecidableEq, Repr

/-- `MarketMaker::update_binance_price` (market_maker.rs lines 70-73). -/
def MarketMaker.update_binance_price (mm : MarketMaker) (bid ask : ℚ) : MarketMaker :=
  { mm with binance_bid := bid, binance_ask := ask }

/-- `MarketMaker::on_fill` (market_maker.rs lines 75-103); `now` is the
`Instant::now()` of line 101. -/
def MarketMaker.on_fill (mm : MarketMaker) (side : String) (qty px : ℚ) (now : ℚ) :
    MarketMaker :=
  -- lines 77-89: weighted-average entry price
  let mm :=
    if mm.position = 0 then { mm with entry_price := px }
    else
      let is_long := decide (0 < mm.position)
      let is_buy := side == "Buy"
      if (is_long && is_buy) || (!is_long && !is_buy) then
        { mm with entry_price :=
            (|mm.position| * mm.entry_price + qty * px) / (|mm.position| + qty) }
      else mm
  -- lines 91-95: apply the fill to the signed position
  let mm :=
    if side == "Buy" then { mm with position := mm.position + qty }
    else { mm with position := mm.position - qty }
  -- lines 97-99: zero the entry price when flat
  let mm := if |mm.position| < 1 / 10000 then { mm with entry_price := 0 } else mm
  -- line 101
  { mm with last_trade_ts := some now }

/-- `MarketMaker::on_order_cancel` (market_maker.rs lines 105-113). -/
def MarketMaker.on_order_cancel (mm : MarketMaker) (side : String) : MarketMaker :=
  if side == "Buy" then { mm with has_active_buy := false, active_buy_price := 0 }
  else if side == "Sell" then { mm with has_active_sell := false, active_sell_price := 0 }
  else mm

/-- `MarketMaker::sync_position` (market_maker.rs lines 115-134); `now` is
the `Instant::now()` of line 125. -/
def MarketMaker.sync_position (mm : MarketMaker) (user_position avg_price : ℚ)
    (now : ℚ) : MarketMaker :=
  if 1 / 10000 < |mm.position - user_position| then
    let mm := { mm with position := user_position, entry_price := avg_price }
    -- lines 124-126
    let mm :=
      if 1 / 10000 < |mm.position| ∧ mm.last_trade_ts = none then
        { mm with last_trade_ts := some now }
      else mm
    -- lines 128-132
    if |mm.position| < 1 / 10000 then
      { mm with last_trade_ts := none, entry_price := 0 }
    else mm
  else mm

/-- `MarketMaker::reset_order` (market_maker.rs lines 426-437); `ts_micros`
is the wall-clock microsecond count of line 427. -/
def MarketMaker.reset_order (mm : MarketMaker) (side : String) (ts_micros : Nat) :
    MarketMaker :=
  if side == "Buy" then
    { mm with has_active_buy := false, active_buy_price := 0,
              active_buy_link_id := "b-" ++ toString (ts_micros / 1000) }
  else if side == "Sell" then
    { mm with has_active_sell := false, active_sell_price := 0,
              active_sell_link_id := "s-" ++ toString (ts_micros / 1000) }
  else mm

/-- `f64::round`: round half away from zero. -/
def rustRound (x : ℚ) : ℤ := if 0 ≤ x then ⌊x + 1 / 2⌋ else ⌈x - 1 / 2⌉

/-- `f64::clamp(lo, hi)`. -/
def rustClamp (x lo hi : ℚ) : ℚ := min (max x lo) hi

/-- The inventory-holding branch of `on_tick` (market_maker.rs lines
154-229), entered when `|position| > 0.0001`. -/
def MarketMaker.close_branch (mm : MarketMaker) (book : L2OrderBook) (now : ℚ) :
    MarketMaker × Option (List Action) :=
  let current_bid := (book.bids.getD 0 default).price
  let current_ask := (book.asks.getD 0 default).price
  -- lines 163-167
  let unrealized_pnl :=
    if 0 < mm.position then (current_bid - mm.entry_price) / mm.entry_price
    else (mm.entry_price - current_ask) / mm.entry_price
  -- lines 171-194: time-stop (3 s, only at a loss) or take-profit (0.3%)
  let close_signal : Bool :=
    (decide (unrealized_pnl ≤ 0) &&
      (match mm.last_trade_ts with
       | some ts => decide (3000000 < now - ts)
       | none => false))
    ||
    (if 0 < mm.position then decide (mm.entry_price * (1003 / 1000) < current_bid)
     else decide (current_ask < mm.entry_price * (997 / 1000)))
  if close_signal then
    -- lines 196-222: CancelAll, then ClosePosition of |position| on the
    -- opposite side; both active flags cleared
    let close_side := if 0 < mm.position then "Sell" else "Buy"
    ({ mm with has_active_buy := false, has_active_sell := false },
      some [⟨.CancelAll⟩, ⟨.ClosePosition |mm.position| close_side⟩])
  else
    -- lines 223-228: hold, do not requote
    (mm, none)

/-- Bid-side wall scan of `on_tick` (market_maker.rs lines 321-339): the
first level with `qty ≥ 1000` whose front-run price (one 0.01 tick above)
lies strictly between the current target and the mid replaces the target. -/
def wallScanBids (levels : List Level) (mid target : ℚ) : ℚ :=
  match levels with
  | [] => target
  | lvl :: rest =>
    if lvl.price = 0 then target
    else if 1000 ≤ lvl.qty then
      let front_run := lvl.price + 1 / 100
      if target < front_run ∧ front_run < mid then front_run
      else wallScanBids rest mid target
    else wallScanBids rest mid target

/-- Ask-side wall scan of `on_tick` (market_maker.rs lines 341-358). -/
def wallScanAsks (levels : List Level) (mid target : ℚ) : ℚ :=
  match levels with
  | [] => target
  | lvl :: rest =>
    if lvl.price = 0 then target
    else if 1000 ≤ lvl.qty then
      let front_run := lvl.price - 1 / 100
      if front_run < target ∧ mid < front_run then front_run
      else wallScanAsks rest mid target
    else wallScanAsks rest mid target

/-- Buy-side order placement of `on_tick` (market_maker.rs lines 366-391). -/
def MarketMaker.buy_side_actions (mm : MarketMaker) (target_buy_price buy_qty : ℚ) :
    MarketMaker × List Action :=
  if !mm.has_active_buy then
    ({ mm with has_active_buy := true, active_buy_price := target_buy_price },
      [⟨.CreateOrder target_buy_price buy_qty "Buy" mm.active_buy_link_id⟩])
  else if 1 / 10000 < |mm.active_buy_price - target_buy_price| then
    ({ mm with active_buy_price := target_buy_price },
      [⟨.AmendOrder target_buy_price buy_qty "Buy" mm.active_buy_link_id⟩])
  else (mm, [])

/-- Sell-side order placement of `on_tick` (market_maker.rs lines 393-418). -/
def MarketMaker.sell_side_actions (mm : MarketMaker) (target_sell_price sell_qty : ℚ) :
    MarketMaker × List Action :=
  if !mm.has_active_sell then
    ({ mm with has_active_sell := true, active_sell_price := target_sell_price },
      [⟨.CreateOrder target_sell_price sell_qty "Sell" mm.active_sell_link_id⟩])
  else if 1 / 10000 < |mm.active_sell_price - target_sell_price| then
    ({ mm with active_sell_price := target_sell_price },
      [⟨.AmendOrder target_sell_price sell_qty "Sell" mm.active_sell_link_id⟩])
  else (mm, [])

/-- The quoting branch of `on_tick` (market_maker.rs lines 231-423),
entered when flat. -/
def MarketMaker.quote_branch (mm : MarketMaker) (book : L2OrderBook) (now : ℚ) :
    MarketMaker × Option (List Action) :=
  let bybit_bid := book.bids.getD 0 default
  let bybit_ask := book.asks.getD 0 default
  -- lines 234-237: empty book
  if bybit_bid.price = 0 ∨ bybit_ask.price = 0 then (mm, none)
  else
    let mid_price := (bybit_bid.price + bybit_ask.price) / 2
    -- lines 242-250: tick-velocity EMA and TPS
    let delta_us := now - mm.last_tick_arrival_ts
    let mm := { mm with last_tick_arrival_ts := now,
                        tick_interval_ema := 3 / 10 * delta_us + 7 / 10 * mm.tick_interval_ema }
    let tps := 1000000 / max mm.tick_interval_ema 1
    -- lines 252-260: TPS spread component (0.4% … 1.0%)
    let spread_ratio := rustClamp ((tps - 20) / (100 - 20)) 0 1
    let tps_spread := 1 / 250 + spread_ratio * (1 / 100 - 1 / 250)
    -- lines 262-279: requote trigger and shock spread
    let elapsed := now - mm.last_update_ts
    let change_pct :=
      if 0 < mm.last_update_mid then |mid_price - mm.last_update_mid| / mm.last_update_mid
      else 0
    let price_trigger := 1 / 250 < change_pct
    let heartbeat := 30000000 < elapsed
    let shock_spread := rustClamp (change_pct * 4) 0 (3 / 250)
    let final_spread := max tps_spread shock_spread
    -- lines 285-299: rate limit / hang gates
    let min_interval : ℚ := if price_trigger then 0 else 100000
    if elapsed < min_interval ∧ ¬heartbeat then (mm, none)
    else if ¬price_trigger ∧ ¬heartbeat then (mm, none)
    else
      -- lines 310-311: targets rounded to 2 decimal places
      let target_buy_price := (rustRound (bybit_bid.price * (1 - final_spread) * 100) : ℚ) / 100
      let target_sell_price := (rustRound (bybit_ask.price * (1 + final_spread) * 100) : ℚ) / 100
      -- lines 313-358: wall detection
      let target_buy_price := wallScanBids book.bids mid_price target_buy_price
      let target_sell_price := wallScanAsks book.asks mid_price target_sell_price
      -- line 363
      let buy_qty : ℚ := 1 / 5
      -- lines 366-418
      let r1 := mm.buy_side_actions target_buy_price buy_qty
      let r2 := r1.1.sell_side_actions target_sell_price buy_qty
      let actions := r1.2 ++ r2.2
      -- lines 420-421
      let mm := { r2.1 with last_update_ts := now, last_update_mid := mid_price }
      (mm, if actions = [] then none else some actions)

/-- `MarketMaker::on_tick` (market_maker.rs lines 136-424). -/
def MarketMaker.on_tick (mm : MarketMaker) (book : L2OrderBook) (exch_ts : Nat)
    (now : ℚ) : MarketMaker × Option (List Action) :=
  let mm := { mm with tick_counter := mm.tick_counter + 1 }
  -- lines 144-147: batch de-dup
  if 0 < exch_ts ∧ exch_ts = mm.last_exch_ts then (mm, none)
  else
    -- lines 148-150
    let mm := if 0 < exch_ts then { mm with last_exch_ts := exch_ts } else mm
    -- line 155
    if 1 / 10000 < |mm.position| then mm.close_branch book now
    else mm.quote_branch book now

/-- The `StrategyState` invariant as stated in the spec (§3): a flat
position has no entry price and no trade timestamp, and an active buy
order has a positive recorded price. -/
def StrategyInv (mm : MarketMaker) : Prop :=
  (|mm.position| < 1 / 10000 → mm.entry_price = 0 ∧ mm.last_trade_ts = none)
  ∧ (mm.has_active_buy = true → 0 < mm.active_buy_price)

/-- `StrategyInv` without its `last_trade_ts` clause (the part of the
invariant that `on_fill` actually preserves). -/
def StrategyInvWeak (mm : MarketMaker) : Prop :=
  (|mm.position| < 1 / 10000 → mm.entry_price = 0)
  ∧ (mm.has_active_buy = true → 0 < mm.active_buy_price)

/-- The quoting and position state of a `MarketMaker`: the fields the
frame-effect claim about `on_tick` protects (everything except the
bookkeeping fields `tick_counter`, `last_exch_ts`, the tick-velocity EMA,
the arrival/update timestamps and the reference-feed snapshot). -/
def coreState (mm : MarketMaker) :
    ℚ × ℚ × Bool × Bool × ℚ × ℚ × String × String :=
  (mm.position, mm.entry_price, mm.has_active_buy, mm.has_active_sell,
   mm.active_buy_price, mm.active_sell_price,
   mm.active_buy_link_id, mm.active_sell_link_id)

/-! ## Venue error dispatch — src/main.rs -/

/-- Whether `needle` is an initial segment of `hay`. -/
def listStartsWith : List Char → List Char → Bool
  | [], _ => true
  | _ :: _, [] => false
  | a :: l, b :: m => a == b && listStartsWith l m

/-- Whether `needle` occurs contiguously in `hay`. -/
def listContains (needle : List Char) : List Char → Bool
  | [] => listStartsWith needle []
  | b :: m => listStartsWith needle (b :: m) || listContains needle m

/-- Substring test, Rust `str::contains`. -/
def containsSub (hay needle : String) : Bool := listContains needle.toList hay.toList

/-- The `reqId` → side inference shared by both handlers
(main.rs lines 721-723 and 978-980). -/
def sideFromReqId (req_id : String) : Option String :=
  if containsSub req_id "bot-buy" || containsSub req_id "-b-" ||
      listStartsWith "b-".toList req_id.toList then
    some "Buy"
  else if containsSub req_id "bot-sell" || containsSub req_id "-s-" ||
      listStartsWith "s-".toList req_id.toList then
    some "Sell"
  else none

/-- A venue response carrying a `retCode`, as consumed by the two error
handlers of `main.rs`. -/
structure VenueError where
  retCode : Int
  op : String
  retMsg : String
  reqId : Option String
deriving DecidableEq, Repr

/-- The strategy-state effects an error handler performs: an optional
`reset_order(side)`, a `sync_position(0,0)`-plus-clear-both-flags, and a
10-second sleep. -/
structure RecoveryEffects where
  reset_side : Option String
  sync_zero_clear : Bool
  sleep_10s : Bool
deriving DecidableEq, Repr

/-- The private-stream `retCode` handler (main.rs lines 701-746). -/
def private_stream_dispatch (e : VenueError) : RecoveryEffects :=
  if e.retCode = 0 then ⟨none, false, false⟩
  else
    -- lines 710-715
    let is_create_fail := e.op == "order.create"
    let is_gone := decide (e.retCode = 110001)
    let is_mode_mismatch := decide (e.retCode = 10001)
    let is_duplicate := decide (e.retCode = 110072)
    let is_not_modified := containsSub e.retMsg "not modified"
    -- lines 717-730: RECOVERY 1 — reset the side inferred from reqId
    let reset :=
      if (is_create_fail || is_gone || is_mode_mismatch || is_duplicate)
          && !is_not_modified then
        match e.reqId with
        | some r => sideFromReqId r
        | none => none
      else none
    { reset_side := reset,
      -- lines 736-741
      sync_zero_clear := decide (e.retCode = 110017) || decide (e.retCode = 10404),
      -- lines 742-745
      sleep_10s := decide (e.retCode = 10006) }

/-- The trade-stream `retCode` handler (main.rs lines 962-989). -/
def trade_stream_dispatch (e : VenueError) : RecoveryEffects :=
  if e.retCode = 0 then ⟨none, false, false⟩
  -- lines 968-974
  else if e.retCode = 110017 then ⟨none, true, false⟩
  -- lines 976-987
  else if e.retCode = 110001 then
    ⟨(match e.reqId with | some r => sideFromReqId r | none => none), false, false⟩
  else ⟨none, false, false⟩

/-- The side inferred from a `reqId` *prefix* only, and the dispatch table
exactly as the claim states it: 110001 → reset; 110017 → sync+clear;
10006 → sleep; 10001/10404 → reset; everything else only logged.  Written
from the claim's words, to be compared with the handlers above. -/
def claimedPrefixSide (r : String) : Option String :=
  if listStartsWith "b-".toList r.toList then some "Buy"
  else if listStartsWith "s-".toList r.toList then some "Sell"
  else none

/-- The dispatch behaviour the claim describes (from the spec's words). -/
def claimed_dispatch (e : VenueError) : RecoveryEffects :=
  if e.retCode = 110001 ∨ e.retCode = 10001 ∨ e.retCode = 10404 then
    ⟨(match e.reqId with | some r => claimedPrefixSide r | none => none), false, false⟩
  else if e.retCode = 110017 then ⟨none, true, false⟩
  else if e.retCode = 10006 then ⟨none, false, true⟩
  else ⟨none, false, false⟩

/-! ## Concrete states for the end-to-end scenarios -/

/-- Flat quoting state: no inventory, no active orders,
`last_update_mid = 100`, tick-velocity EMA at 20 000 µs (50 TPS once a
20 000 µs delta is folded in). -/
def mmC1 : MarketMaker :=
  { target_spread := 1/100, tick_counter := 0, binance_bid := 0, binance_ask := 0,
    last_update_ts := 0, has_active_buy := false, has_active_sell := false,
    active_buy_link_id := "b-1", active_sell_link_id := "s-1", position := 0,
    entry_price := 0, last_trade_ts := none, active_buy_price := 0,
    active_sell_price := 0, last_update_mid := 100, last_tick_arrival_ts := 0,
    tick_interval_ema := 20000, last_exch_ts := 0 }

/-- Book with top of book `bid = 100.6`, `ask = 100.7` and no walls. -/
def bookC1 : L2OrderBook :=
  { bids := (⟨503/5, 1⟩ : Level) :: List.replicate 19 default,
    asks := (⟨1007/10, 1⟩ : Level) :: List.replicate 19 default }

/-- Holding state: long `+0.2 @ 100.000` with both quotes resting. -/
def mmC2 : MarketMaker :=
  { target_spread := 1/100, tick_counter := 0, binance_bid := 0, binance_ask := 0,
    last_update_ts := 0, has_active_buy := true, has_active_sell := true,
    active_buy_link_id := "b-1", active_sell_link_id := "s-1", position := 1/5,
    entry_price := 100, last_trade_ts := some 0, active_buy_price := 100,
    active_sell_price := 101, last_update_mid := 100, last_tick_arrival_ts := 0,
    tick_interval_ema := 20000, last_exch_ts := 0 }

/-- Book with top of book `bid = 100.35`, `ask = 100.40`. -/
def bookC2 : L2OrderBook :=
  { bids := (⟨2007/20, 1⟩ : Level) :: List.replicate 19 default,
    asks := (⟨1004/10, 1⟩ : Level) :: List.replicate 19 default }

/-- Holding state with no active orders: long `+0.2 @ 100`,
`last_trade_ts` set — satisfies the strategy invariant. -/
def mmC4 : MarketMaker :=
  { target_spread := 1/100, tick_counter := 0, binance_bid := 0, binance_ask := 0,
    last_update_ts := 0, has_active_buy := false, has_active_sell := false,
    active_buy_link_id := "b-1", active_sell_link_id := "s-1", position := 1/5,
    entry_price := 100, last_trade_ts := some 0, active_buy_price := 0,
    active_sell_price := 0, last_update_mid := 100, last_tick_arrival_ts := 0,
    tick_interval_ema := 20000, last_exch_ts := 0 }

/-! # Theorems

## List helper lemmas for the order-book proofs -/

theorem scanIdx_none_iff (p : α → Bool) (l : List α) :
    scanIdx p l = none ↔ ∀ x ∈ l, p x = false := by
  induction l with
  | nil => simp [scanIdx]
  | cons a l ih =>
    cases hpa : p a with
    | true => simp [scanIdx, hpa]
    | false => simp [scanIdx, hpa, ih]

theorem scanIdx_some_decomp (p : α → Bool) (l : List α) (i : Nat)
    (h : scanIdx p l = some i) :
    ∃ u x v, l = u ++ x :: v ∧ u.length = i ∧ p x = true ∧ ∀ y ∈ u, p y = false := by
  induction l generalizing i with
  | nil => simp [scanIdx] at h
  | cons a l ih =>
    cases hpa : p a with
    | true =>
      rw [scanIdx, if_pos hpa] at h
      exact ⟨[], a, l, by simp, by simp [← Option.some_inj.mp h], hpa, by simp⟩
    | false =>
      rw [scanIdx, if_neg (by simp [hpa])] at h
      obtain ⟨j, hj, hji⟩ := Option.map_eq_some'.mp h
      obtain ⟨u, x, v, rfl, hlen, hpx, hpu⟩ := ih j hj
      refine ⟨a :: u, x, v, rfl, by simp [hlen, hji], hpx, ?_⟩
      intro y hy
      rcases List.mem_cons.mp hy with rfl | hy
      · exact hpa
      · exact hpu y hy

theorem scanIdx_append_first (p : α → Bool) (u : List α) (x : α) (v : List α)
    (hu : ∀ y ∈ u, p y = false) (hx : p x = true) :
    scanIdx p (u ++ x :: v) = some u.length := by
  induction u with
  | nil => simp [scanIdx, hx]
  | cons a u ih =>
    have ha : p a = false := hu a (by simp)
    rw [List.cons_append, scanIdx, if_neg (by simp [ha]),
      ih (fun y hy => hu y (by simp [hy]))]
    rfl

theorem set_len_append (u : List α) (x y : α) (v : List α) :
    (u ++ x :: v).set u.length y = u ++ y :: v := by
  induction u with
  | nil => rfl
  | cons a u ih =>
    show a :: ((u ++ x :: v).set u.length y) = a :: (u ++ y :: v)
    rw [ih]

theorem eraseIdx_len_append (u : List α) (x : α) (v : List α) :
    (u ++ x :: v).eraseIdx u.length = u ++ v := by
  induction u with
  | nil => rfl
  | cons a u ih =>
    show a :: ((u ++ x :: v).eraseIdx u.length) = a :: (u ++ v)
    rw [ih]

theorem getD_len_append (u : List α) (x : α) (v : List α) (d : α) :
    (u ++ x :: v).getD u.length d = x := by
  induction u with
  | nil => rfl
  | cons a u ih =>
    show (u ++ x :: v).getD u.length d = x
    exact ih

theorem insertAt_len_append (u v : List α) (a : α) :
    insertAt u.length a (u ++ v) = u ++ a :: v := by
  simp [insertAt, List.take_left, List.drop_left]

theorem take_append_len (u v : List α) (k : Nat) :
    (u ++ v).take (u.length + k) = u ++ v.take k := by
  induction u with
  | nil => simp
  | cons a u ih =>
    rw [List.cons_append, List.length_cons, Nat.add_right_comm, List.take_succ_cons, ih,
      List.cons_append]

theorem append_split_cases {u v front back : List α} {x : α}
    (h : u ++ x :: v = front ++ back) :
    (∃ mid, front = u ++ x :: mid ∧ v = mid ++ back) ∨
    (∃ mid, u = front ++ mid ∧ back = mid ++ x :: v) := by
  rcases List.append_eq_append_iff.mp h with ⟨a, ha1, ha2⟩ | ⟨c, hc1, hc2⟩
  · cases a with
    | nil =>
      refine Or.inr ⟨[], ?_, ?_⟩
      · simp at ha1; simp [ha1]
      · simp at ha2; simp [ha2]
    | cons y mid =>
      rw [List.cons_append] at ha2
      obtain ⟨rfl, hv⟩ : x = y ∧ v = mid ++ back := by
        have := List.cons.injEq x v y (mid ++ back) ▸ ha2
        simpa using ha2
      exact Or.inl ⟨mid, by rw [ha1], hv⟩
  · exact Or.inr ⟨c, hc1, hc2⟩

theorem pairwise_price_congr (better : ℚ → ℚ → Bool) (u v : List Level)
    (x x' : Level) (hpx : x'.price = x.price)
    (h : (u ++ x :: v).Pairwise (fun a b => better a.price b.price = true)) :
    (u ++ x' :: v).Pairwise (fun a b => better a.price b.price = true) := by
  rw [List.pairwise_append] at h ⊢
  obtain ⟨h1, h2, h3⟩ := h
  rw [List.pairwise_cons] at h2 ⊢
  refine ⟨h1, ⟨fun b hb => ?_, h2.2⟩, fun a ha b hb => ?_⟩
  · rw [hpx]; exact h2.1 b hb
  · rcases List.mem_cons.mp hb with rfl | hb
    · rw [hpx]; exact h3 a ha x (by simp)
    · exact h3 a ha b (by simp [hb])

/-- Sortedness, positivity and tail-contiguity of one book side are
preserved by `updateSide`, for any strict total comparison, positive price
and non-negative quantity. -/
theorem sideInv_updateSide (better : ℚ → ℚ → Bool)
    (htrans : ∀ a b c : ℚ, better a b = true → better b c = true → better a c = true)
    (htotal : ∀ a b : ℚ, a ≠ b → better a b = true ∨ better b a = true)
    (ls : List Level) (price qty : ℚ) (hp : 0 < price) (hq : 0 ≤ qty)
    (hinv : SideInv better ls) :
    SideInv better (updateSide better ls price qty) := by
  obtain ⟨front, back, rfl, hpair, hfront, hback⟩ := hinv
  unfold updateSide
  split
  case _ i hscan =>
    obtain ⟨u, x, v, hdec, hlen, hpx, hpu⟩ := scanIdx_some_decomp _ _ _ hscan
    by_cases hq0 : qty = 0
    · rw [if_pos hq0, hdec, ← hlen, eraseIdx_len_append]
      rcases append_split_cases hdec.symm with ⟨mid, hf, hv⟩ | ⟨mid, hu2, hb2⟩
      · -- a level was removed from inside the occupied prefix
        refine ⟨u ++ mid, back ++ [default], by rw [hv]; simp, ?_, ?_, ?_⟩
        · exact List.Pairwise.sublist ((List.sublist_cons_self x mid).append_left u)
            (hf ▸ hpair)
        · intro l hl
          exact hfront l (by rw [hf]; rcases List.mem_append.mp hl with h | h <;> simp [h])
        · intro l hl
          rcases List.mem_append.mp hl with h | h
          · exact hback l h
          · simp at h; rw [h]; rfl
      · -- an empty slot was removed from the tail
        refine ⟨front, mid ++ v ++ [default], by rw [hu2]; simp, hpair, hfront, ?_⟩
        intro l hl
        rcases List.mem_append.mp hl with h | h
        · rcases List.mem_append.mp h with h2 | h2
          · exact hback l (by rw [hb2]; simp [h2])
          · exact hback l (by rw [hb2]; simp [h2])
        · simp at h; rw [h]; rfl
    · rw [if_neg hq0, hdec, ← hlen, getD_len_append]
      show SideInv better ((u ++ x :: v).set u.length ⟨x.price, qty⟩)
      rw [set_len_append]
      have hqpos : 0 < qty := lt_of_le_of_ne hq (Ne.symm hq0)
      rcases append_split_cases hdec.symm with ⟨mid, hf, hv⟩ | ⟨mid, hu2, hb2⟩
      · -- quantity overwritten on an occupied slot
        refine ⟨u ++ { x with qty := qty } :: mid, back, by rw [hv]; simp, ?_, ?_, hback⟩
        · exact pairwise_price_congr better u mid x _ rfl (hf ▸ hpair)
        · intro l hl
          rcases List.mem_append.mp hl with h | h
          · exact hfront l (by rw [hf]; simp [h])
          · rcases List.mem_cons.mp h with rfl | h2
            · exact ⟨(hfront x (by rw [hf]; simp)).1, hqpos⟩
            · exact hfront l (by rw [hf]; simp [h2])
      · -- quantity written onto an empty tail slot (its price stays 0)
        refine ⟨front, mid ++ { x with qty := qty } :: v, by rw [hu2]; simp, hpair, hfront, ?_⟩
        intro l hl
        rcases List.mem_append.mp hl with h | h
        · exact hback l (by rw [hb2]; simp [h])
        · rcases List.mem_cons.mp h with rfl | h2
          · exact hback x (by rw [hb2]; simp)
          · exact hback l (by rw [hb2]; simp [h2])
  case _ hscan =>
    have hnm : ∀ y ∈ front ++ back, y.price ≠ price := by
      intro y hy heq
      have h1 := (scanIdx_none_iff _ _).mp hscan y hy
      rw [heq] at h1
      norm_num [f64_eps] at h1
    by_cases hq0 : qty = 0
    · rw [if_pos hq0]; exact ⟨front, back, rfl, hpair, hfront, hback⟩
    · rw [if_neg hq0]
      have hqpos : 0 < qty := lt_of_le_of_ne hq (Ne.symm hq0)
      split
      case _ i hscan2 =>
        obtain ⟨u, x, v, hdec, hlen, hPx, hPu⟩ := scanIdx_some_decomp _ _ _ hscan2
        have hu_info : ∀ y ∈ u, y.price ≠ 0 ∧ better y.price price = true := by
          intro y hy
          have hyl : y ∈ front ++ back := by rw [hdec]; simp [hy]
          have h1 := hPu y hy
          simp only [Bool.or_eq_false_iff, beq_eq_false_iff_ne] at h1
          refine ⟨h1.1, ?_⟩
          rcases htotal y.price price (hnm y hyl) with h | h
          · exact h
          · rw [h] at h1; exact absurd h1.2 (by simp)
        rw [hdec, ← hlen, insertAt_len_append]
        rcases append_split_cases hdec.symm with ⟨mid, hf, hv⟩ | ⟨mid, hu2, hb2⟩
        · -- inserted strictly inside the occupied prefix
          have hxf : x ∈ front := by rw [hf]; simp
          have hbx : better price x.price = true := by
            simp only [Bool.or_eq_true, beq_iff_eq] at hPx
            rcases hPx with h | h
            · exact absurd h (ne_of_gt (hfront x hxf).1)
            · exact h
          have hpairF :
              (u ++ (⟨price, qty⟩ : Level) :: x :: mid).Pairwise
                (fun a b => better a.price b.price = true) := by
            have hpf := hf ▸ hpair
            rw [List.pairwise_append] at hpf ⊢
            obtain ⟨hpu1, hpxm, hcross⟩ := hpf
            refine ⟨hpu1, ?_, ?_⟩
            · rw [List.pairwise_cons]
              refine ⟨?_, hpxm⟩
              intro b hb
              rcases List.mem_cons.mp hb with rfl | hb2
              · exact hbx
              · exact htrans _ _ _ hbx (List.rel_of_pairwise_cons hpxm hb2)
            · intro a ha b hb
              rcases List.mem_cons.mp hb with rfl | hb2
              · exact (hu_info a ha).2
              · exact hcross a ha b hb2
          have hmemF : ∀ l ∈ u ++ (⟨price, qty⟩ : Level) :: x :: mid,
              0 < l.price ∧ 0 < l.qty := by
            intro l hl
            rcases List.mem_append.mp hl with h | h
            · exact hfront l (by rw [hf]; simp [h])
            · rcases List.mem_cons.mp h with rfl | h2
              · exact ⟨hp, hqpos⟩
              · exact hfront l (by rw [hf]; simp [h2])
          rw [hv]
          cases back with
          | nil =>
            simp only [List.append_nil]
            refine ⟨(u ++ (⟨price, qty⟩ : Level) :: x :: mid).take
                (u ++ x :: mid).length, [], by simp, ?_, ?_, by simp⟩
            · exact List.Pairwise.sublist (List.take_sublist _ _) hpairF
            · intro l hl
              exact hmemF l ((List.take_sublist _ _).subset hl)
          | cons b bs =>
            have hre : u ++ (⟨price, qty⟩ : Level) :: x :: (mid ++ b :: bs) =
                (u ++ (⟨price, qty⟩ : Level) :: x :: mid) ++ b :: bs := by
              simp
            have hlen2 : (u ++ x :: (mid ++ b :: bs)).length =
                (u ++ (⟨price, qty⟩ : Level) :: x :: mid).length + bs.length := by
              simp; omega
            rw [hre, hlen2, take_append_len]
            refine ⟨u ++ (⟨price, qty⟩ : Level) :: x :: mid, (b :: bs).take bs.length,
              rfl, hpairF, hmemF, ?_⟩
            intro l hl
            exact hback l ((List.take_sublist _ _).subset hl)
        · -- inserted at the boundary of the occupied prefix
          have hmid : mid = [] := by
            cases mid with
            | nil => rfl
            | cons m ms =>
              have h1 : m ∈ u := by rw [hu2]; simp
              have h2 : m ∈ back := by rw [hb2]; simp
              exact absurd (hback m h2) (hu_info m h1).1
          subst hmid
          simp only [List.append_nil, List.nil_append] at hu2 hb2
          subst hu2
          have hlen3 : (u ++ x :: v).length = u.length + (x :: v).length := by
            simp
          rw [hlen3, take_append_len, show (x :: v).length = v.length + 1 from rfl,
            List.take_succ_cons]
          refine ⟨u ++ [(⟨price, qty⟩ : Level)], (x :: v).take v.length,
            by simp, ?_, ?_, ?_⟩
          · rw [List.pairwise_append]
            refine ⟨hpair, by simp, ?_⟩
            intro a ha b hb
            simp only [List.mem_singleton] at hb
            subst hb
            exact (hu_info a ha).2
          · intro l hl
            rcases List.mem_append.mp hl with h | h
            · exact hfront l h
            · simp only [List.mem_singleton] at h
              subst h
              exact ⟨hp, hqpos⟩
          · intro l hl
            exact hback l (by rw [hb2]; exact (List.take_sublist _ _).subset hl)
      case _ hscan2 => exact ⟨front, back, rfl, hpair, hfront, hback⟩

theorem bidBetter_trans : ∀ a b c : ℚ, bidBetter a b = true → bidBetter b c = true →
    bidBetter a c = true := by
  intro a b c h1 h2
  simp only [bidBetter, decide_eq_true_eq] at *
  exact lt_trans h2 h1

theorem bidBetter_total : ∀ a b : ℚ, a ≠ b → bidBetter a b = true ∨ bidBetter b a = true := by
  intro a b h
  rcases lt_or_gt_of_ne h with hlt | hgt
  · exact Or.inr (by simp [bidBetter, hlt])
  · exact Or.inl (by simp [bidBetter, hgt])

theorem askBetter_trans : ∀ a b c : ℚ, askBetter a b = true → askBetter b c = true →
    askBetter a c = true := by
  intro a b c h1 h2
  simp only [askBetter, decide_eq_true_eq] at *
  exact lt_trans h1 h2

theorem askBetter_total : ∀ a b : ℚ, a ≠ b → askBetter a b = true ∨ askBetter b a = true := by
  intro a b h
  rcases lt_or_gt_of_ne h with hlt | hgt
  · exact Or.inl (by simp [askBetter, hlt])
  · exact Or.inr (by simp [askBetter, hgt])

/-- Shared worker: `L2OrderBook.update` preserves the full book invariant. -/
theorem bookInv_update (book : L2OrderBook) (side : Side) (price qty : ℚ)
    (hp : 0 < price) (hq : 0 ≤ qty) (hinv : BookInv book) :
    BookInv (book.update side price qty) := by
  obtain ⟨hb, ha⟩ := hinv
  cases side with
  | Buy =>
    exact ⟨sideInv_updateSide bidBetter bidBetter_trans bidBetter_total _ _ _ hp hq hb, ha⟩
  | Sell =>
    exact ⟨hb, sideInv_updateSide askBetter askBetter_trans askBetter_total _ _ _ hp hq ha⟩

theorem bookInv_new : BookInv L2OrderBook.new := by
  constructor <;>
    exact ⟨[], List.replicate 20 default, by simp [L2OrderBook.new], by simp, by simp,
      fun l hl => by rw [List.eq_of_mem_replicate hl]; rfl⟩

/-- A price at distance ≥ f64::EPSILON from `p` is distinct from `p`. -/
theorem ne_of_sep {a p : ℚ} (h : f64_eps ≤ |a - p|) : a ≠ p := by
  intro heq
  rw [heq] at h
  norm_num [f64_eps] at h

theorem countP_price_zero (p : ℚ) (l : List Level)
    (h : ∀ y ∈ l, y.price ≠ p) : l.countP (fun l => l.price == p) = 0 :=
  List.countP_eq_zero.mpr (fun y hy => by simpa using h y hy)

/-- `updateSide` with `qty = 0` and a price ε-separated from every slot is
a no-op. -/
theorem updateSide_noop (better : ℚ → ℚ → Bool) (levels : List Level) (price : ℚ)
    (hsep : ∀ l ∈ levels, f64_eps ≤ |l.price - price|) :
    updateSide better levels price 0 = levels := by
  unfold updateSide
  split
  case _ i heq =>
    exfalso
    obtain ⟨u, x, v, hdec, hlen, hPx, hPu⟩ := scanIdx_some_decomp _ _ _ heq
    have hx : x ∈ levels := by rw [hdec]; simp
    simp only [decide_eq_true_eq] at hPx
    exact absurd hPx (not_lt.mpr (hsep x hx))
  case _ heq => simp

/-- `updateSide` with `qty ≠ 0`, a price ε-separated from every slot, and
at least one empty slot, inserts exactly one `⟨price, qty⟩` level; all
other slots keep their ε-separated prices. -/
theorem updateSide_insert_shape (better : ℚ → ℚ → Bool) (levels : List Level)
    (price qty : ℚ) (hq0 : qty ≠ 0)
    (hsep : ∀ l ∈ levels, f64_eps ≤ |l.price - price|)
    (hempty : ∃ l ∈ levels, l.price = 0) :
    ∃ u w, updateSide better levels price qty = u ++ (⟨price, qty⟩ : Level) :: w ∧
      (∀ y ∈ u, f64_eps ≤ |y.price - price|) ∧
      (∀ y ∈ w, f64_eps ≤ |y.price - price|) := by
  have hscan1 : scanIdx (fun l => decide (|l.price - price| < f64_eps)) levels = none := by
    rw [scanIdx_none_iff]
    intro y hy
    simpa using not_lt.mpr (hsep y hy)
  unfold updateSide
  split
  case _ i heq => rw [hscan1] at heq; cases heq
  case _ heq =>
    rw [if_neg hq0]
    split
    case _ i heq2 =>
      obtain ⟨u, x, v, hdec, hlen, hPu2, hPu⟩ := scanIdx_some_decomp _ _ _ heq2
      rw [hdec, ← hlen, insertAt_len_append,
        show (u ++ x :: v).length = u.length + (x :: v).length by simp, take_append_len,
        show (x :: v).length = v.length + 1 from rfl, List.take_succ_cons]
      refine ⟨u, (x :: v).take v.length, rfl, ?_, ?_⟩
      · intro y hy
        exact hsep y (by rw [hdec]; simp [hy])
      · intro y hy
        have h2 : y ∈ x :: v := (List.take_sublist _ _).subset hy
        exact hsep y (by rw [hdec]; exact List.mem_append_right u h2)
    case _ heq2 =>
      exfalso
      obtain ⟨l, hl, hl0⟩ := hempty
      have h1 := (scanIdx_none_iff _ _).mp heq2 l hl
      rw [hl0] at h1
      simp at h1

/-- Removing the inserted level: `updateSide` with `qty = 0` on a list of
shape `u ++ ⟨price, _⟩ :: w`, all of `u` and `w` ε-separated from `price`,
erases exactly that level. -/
theorem updateSide_remove_inserted (better : ℚ → ℚ → Bool) (u w : List Level)
    (price q0 : ℚ)
    (hu : ∀ y ∈ u, f64_eps ≤ |y.price - price|)
    (hw : ∀ y ∈ w, f64_eps ≤ |y.price - price|) :
    updateSide better (u ++ (⟨price, q0⟩ : Level) :: w) price 0 =
      u ++ w ++ [default] := by
  have hscan : scanIdx (fun l => decide (|l.price - price| < f64_eps))
      (u ++ (⟨price, q0⟩ : Level) :: w) = some u.length := by
    apply scanIdx_append_first
    · intro y hy
      simpa using not_lt.mpr (hu y hy)
    · norm_num [f64_eps]
  unfold updateSide
  split
  case _ i heq =>
    rw [hscan] at heq
    obtain rfl : u.length = i := Option.some_inj.mp heq
    rw [if_pos rfl, eraseIdx_len_append]
  case _ heq => rw [hscan] at heq; cases heq

theorem default_level : (default : Level) = ⟨0, 0⟩ := rfl

theorem sideLevels_update (book : L2OrderBook) (side : Side) (price qty : ℚ) :
    (book.update side price qty).sideLevels side =
      updateSide (betterOf side) (book.sideLevels side) price qty := by
  cases side <;> rfl

/-! ## Claim C5 — book invariants preserved by `update` -/

/-- C5: for every order book satisfying the book invariants and every call
`update(side, price, qty)` with `price > 0` and `qty ≥ 0`, the invariants
still hold afterwards: occupied bid slots strictly descending in price,
occupied ask slots strictly ascending, no occupied slot after an empty
(price-0) slot, no duplicate prices on either side (implied by the strict
sort of the occupied prefix), and `qty > 0` on every occupied slot. -/
theorem C5_book_invariants_preserved (book : L2OrderBook) (side : Side)
    (price qty : ℚ) (hp : 0 < price) (hq : 0 ≤ qty) (hinv : BookInv book) :
    BookInv (book.update side price qty) :=
  bookInv_update book side price qty hp hq hinv

/-- Witness for C5 at a concrete input. -/
theorem C5_book_invariants_preserved_witness :
    BookInv (L2OrderBook.new.update .Buy 100 1) :=
  C5_book_invariants_preserved L2OrderBook.new .Buy 100 1 (by norm_num) (by norm_num)
    bookInv_new

/-! ## Claim C6 — presence semantics of `update` -/

/-- C6 counterexample: the price `1/256 + 2⁻⁶⁰` (one representable f64 step
above the resident price `1/256`) is not present in the book, yet
`update(Buy, p, 0)` is not a no-op: the ε-tolerant price match
(`|price - p| < f64::EPSILON`, orderbook.rs line 54) matches the `1/256`
level and removes it. -/
theorem C6_presence_counterexample :
    (L2OrderBook.mk ((⟨1/256, 1⟩ : Level) :: List.replicate 19 default)
        (List.replicate 20 default)).bids.countP
      (fun l => l.price == (1/256 + 1/2^60 : ℚ)) = 0 ∧
    (L2OrderBook.mk ((⟨1/256, 1⟩ : Level) :: List.replicate 19 default)
        (List.replicate 20 default)).update .Buy (1/256 + 1/2^60) 0 ≠
      L2OrderBook.mk ((⟨1/256, 1⟩ : Level) :: List.replicate 19 default)
        (List.replicate 20 default) := by
  constructor
  · norm_num [List.countP_cons, List.replicate, f64_eps, default_level]
  · intro h
    have hb := congrArg L2OrderBook.bids h
    rw [show (L2OrderBook.mk ((⟨1/256, 1⟩ : Level) :: List.replicate 19 default)
        (List.replicate 20 default)).update .Buy (1/256 + 1/2^60) 0 =
        L2OrderBook.mk (List.replicate 20 default) (List.replicate 20 default) from by
      norm_num [L2OrderBook.update, updateSide, scanIdx, f64_eps, List.replicate,
        default_level, abs_of_pos]] at hb
    have := congrArg (fun l => (l.getD 0 default).price) hb
    norm_num [List.replicate, default_level] at this

/-- C6 as amended: with "not present" strengthened to "ε-separated from
every slot price" (forced by the ε-tolerant match of line 54), and "a
single slot is produced" requiring a free slot (a full book drops the
worst level): `update(side,p,0)` is then a no-op; one `update(side,p,q)`
with `q > 0` yields exactly one slot with price `p`; a following
`update(side,p,0)` removes it, and the book invariants (hence gap-freedom)
are preserved throughout; concretely, from an empty book,
`(Buy,100,1), (Buy,101,2), (Buy,100,0)` yields
`bids = [{101,2}, empty, …]`. -/
theorem C6_presence_amended :
    (∀ (book : L2OrderBook) (side : Side) (p : ℚ), 0 < p →
      (∀ l ∈ book.sideLevels side, f64_eps ≤ |l.price - p|) →
      book.update side p 0 = book) ∧
    (∀ (book : L2OrderBook) (side : Side) (p q : ℚ), 0 < p → 0 < q →
      (∀ l ∈ book.sideLevels side, f64_eps ≤ |l.price - p|) →
      (∃ l ∈ book.sideLevels side, l.price = 0) →
      ((book.update side p q).sideLevels side).countP (fun l => l.price == p) = 1 ∧
      (((book.update side p q).update side p 0).sideLevels side).countP
        (fun l => l.price == p) = 0 ∧
      (BookInv book → BookInv ((book.update side p q).update side p 0))) ∧
    ((L2OrderBook.new.update .Buy 100 1).update .Buy 101 2).update .Buy 100 0 =
      L2OrderBook.mk ((⟨101, 2⟩ : Level) :: List.replicate 19 default)
        (List.replicate 20 default) := by
  refine ⟨?_, ?_, ?_⟩
  · intro book side p hp hsep
    cases side with
    | Buy =>
      show { book with bids := updateSide bidBetter book.bids p 0 } = book
      rw [updateSide_noop bidBetter book.bids p hsep]
    | Sell =>
      show { book with asks := updateSide askBetter book.asks p 0 } = book
      rw [updateSide_noop askBetter book.asks p hsep]
  · intro book side p q hp hq hsep hempty
    obtain ⟨u, w, hshape, hu, hw⟩ :=
      updateSide_insert_shape (betterOf side) (book.sideLevels side) p q
        (ne_of_gt hq) hsep hempty
    have hlev1 : (book.update side p q).sideLevels side = u ++ (⟨p, q⟩ : Level) :: w := by
      rw [sideLevels_update]; exact hshape
    have hcu : u.countP (fun l => l.price == p) = 0 :=
      countP_price_zero p u (fun y hy => ne_of_sep (hu y hy))
    have hcw : w.countP (fun l => l.price == p) = 0 :=
      countP_price_zero p w (fun y hy => ne_of_sep (hw y hy))
    refine ⟨?_, ?_, ?_⟩
    · rw [hlev1, List.countP_append, List.countP_cons, hcu, hcw]
      simp
    · have hlev2 : ((book.update side p q).update side p 0).sideLevels side =
          u ++ w ++ [default] := by
        rw [sideLevels_update, hlev1]
        exact updateSide_remove_inserted (betterOf side) u w p q hu hw
      rw [hlev2, List.countP_append, List.countP_append, hcu, hcw]
      have : (default : Level).price ≠ p := by
        show (0 : ℚ) ≠ p
        exact (ne_of_gt hp).symm
      simp [this]
    · intro hinv
      exact bookInv_update _ side p 0 hp le_rfl (bookInv_update book side p q hp hq.le hinv)
  · norm_num [L2OrderBook.update, L2OrderBook.new, updateSide, scanIdx, insertAt,
      f64_eps, List.replicate, default_level, bidBetter, abs_of_pos]

/-- Witness for the amended C6 at concrete inputs. -/
theorem C6_presence_amended_witness :
    L2OrderBook.new.update .Buy 100 0 = L2OrderBook.new ∧
    ((L2OrderBook.new.update .Buy 100 1).sideLevels .Buy).countP
      (fun l => l.price == (100 : ℚ)) = 1 := by
  have hsep : ∀ l ∈ L2OrderBook.new.sideLevels .Buy, f64_eps ≤ |l.price - 100| := by
    intro l hl
    have hld : l = default := by
      simpa [L2OrderBook.new, L2OrderBook.sideLevels] using hl
    rw [hld, default_level]
    norm_num [f64_eps]
  refine ⟨C6_presence_amended.1 L2OrderBook.new .Buy 100 (by norm_num) hsep, ?_⟩
  exact (C6_presence_amended.2.1 L2OrderBook.new .Buy 100 1 (by norm_num) (by norm_num)
    hsep ⟨default, by simp [L2OrderBook.new, L2OrderBook.sideLevels, List.replicate], rfl⟩).1

/-! ## Framing lemmas -/

theorem maskBytes_length (key : List Nat) (i : Nat) (l : List Nat) :
    (maskBytes key i l).length = l.length := by
  induction l generalizing i with
  | nil => rfl
  | cons b rest ih => simp [maskBytes, ih]

theorem maskBytes_involutive (key : List Nat) (i : Nat) (l : List Nat) :
    maskBytes key i (maskBytes key i l) = l := by
  induction l generalizing i with
  | nil => rfl
  | cons b rest ih => simp [maskBytes, ih, Nat.xor_cancel_right]

theorem lor128_eq : ∀ n : Nat, n < 126 → 128 ||| n = 128 + n := by decide

theorem be64_foldl_le (bs : List Nat) (h : ∀ b ∈ bs, b < 256) : ∀ acc : Nat,
    bs.foldl (fun a b => a * 256 + b) acc ≤ acc * 256 ^ bs.length + (256 ^ bs.length - 1) := by
  induction bs with
  | nil => intro acc; simp
  | cons b bs ih =>
    intro acc
    have hb : b < 256 := h b (by simp)
    have htail := ih (fun y hy => h y (by simp [hy])) (acc * 256 + b)
    calc (b :: bs).foldl (fun a b => a * 256 + b) acc
        = bs.foldl (fun a b => a * 256 + b) (acc * 256 + b) := rfl
      _ ≤ (acc * 256 + b) * 256 ^ bs.length + (256 ^ bs.length - 1) := htail
      _ ≤ (acc * 256 + 255) * 256 ^ bs.length + (256 ^ bs.length - 1) := by
          have : acc * 256 + b ≤ acc * 256 + 255 := by omega
          exact Nat.add_le_add_right (Nat.mul_le_mul_right _ this) _
      _ = acc * 256 ^ (bs.length + 1) + (256 ^ (bs.length + 1) - 1) := by
          have hpow : 1 ≤ 256 ^ bs.length := Nat.one_le_two_pow.trans
            (Nat.pow_le_pow_left (by norm_num) _)
          ring_nf
          omega
      _ = acc * 256 ^ (b :: bs).length + (256 ^ (b :: bs).length - 1) := by simp

theorem be64_lt (bs : List Nat) (h : ∀ b ∈ bs, b < 256) (hlen : bs.length ≤ 8) :
    be64 bs < 2 ^ 64 := by
  have h1 := be64_foldl_le bs h 0
  have h2 : 256 ^ bs.length ≤ 256 ^ 8 := Nat.pow_le_pow_right (by norm_num) hlen
  have h3 : (256 : Nat) ^ 8 = 2 ^ 64 := by norm_num
  simp only [Nat.zero_mul, Nat.zero_add] at h1
  unfold be64
  omega

/-- The behaviour of the length-check-and-split tail of `decode_frame`:
with an in-range header it never panics unless the `usize` addition
`header_len + payload_len` wraps, in which case it always panics. -/
theorem decode_payload_cases (buf : List Nat) (h pl : Nat)
    (hh : h ≤ buf.length) (hbuflen : buf.length < 2 ^ 64) (hpl : pl < 2 ^ 64) :
    (h + pl < 2 ^ 64 →
      (buf.length < h + pl → decode_payload buf h pl = .needMore) ∧
      (h + pl ≤ buf.length →
        decode_payload buf h pl = .frame (h + pl) ((buf.drop h).take pl))) ∧
    (2 ^ 64 ≤ h + pl → decode_payload buf h pl = .panic) := by
  constructor
  · intro hnw
    have htot : (h + pl) % 2 ^ 64 = h + pl := Nat.mod_eq_of_lt hnw
    constructor
    · intro hshort
      unfold decode_payload
      rw [htot, if_pos hshort]
    · intro hfit
      unfold decode_payload
      rw [htot, if_neg (by omega)]
      split
      case _ heq =>
        unfold split_at_checked at heq
        rw [if_pos hh] at heq
        cases heq
      case _ a remaining heq =>
        unfold split_at_checked at heq
        rw [if_pos hh] at heq
        obtain ⟨rfl, rfl⟩ : a = buf.take h ∧ remaining = buf.drop h := by
          have := Option.some_inj.mp heq
          exact ⟨congrArg Prod.fst this.symm, congrArg Prod.snd this.symm⟩
        split
        case _ heq2 =>
          unfold split_at_checked at heq2
          rw [if_pos (by simp; omega)] at heq2
          cases heq2
        case _ payload rest heq2 =>
          unfold split_at_checked at heq2
          rw [if_pos (by simp; omega)] at heq2
          obtain ⟨rfl, rfl⟩ : payload = (buf.drop h).take pl ∧ rest = (buf.drop h).drop pl := by
            have := Option.some_inj.mp heq2
            exact ⟨congrArg Prod.fst this.symm, congrArg Prod.snd this.symm⟩
          rfl
  · intro hw
    have htot : (h + pl) % 2 ^ 64 = h + pl - 2 ^ 64 := by
      have : h + pl < 2 * 2 ^ 64 := by omega
      omega
    unfold decode_payload
    rw [htot, if_neg (by omega)]
    split
    case _ heq =>
      unfold split_at_checked at heq
      rw [if_pos hh] at heq
    case _ a remaining heq =>
      unfold split_at_checked at heq
      rw [if_pos hh] at heq
      obtain ⟨rfl, rfl⟩ : a = buf.take h ∧ remaining = buf.drop h := by
        have := Option.some_inj.mp heq
        exact ⟨congrArg Prod.fst this.symm, congrArg Prod.snd this.symm⟩
      split
      case _ heq2 => rfl
      case _ payload rest heq2 =>
        unfold split_at_checked at heq2
        rw [if_neg (by simp; omega)] at heq2
        cases heq2

/-- Decoding an unmasked frame in the 7-bit length form. -/
theorem decode_frame_short (b0 len : Nat) (payload : List Nat)
    (hlen : len < 126) (hplen : payload.length = len) :
    decode_frame (b0 :: len :: payload) = .frame (len + 2) payload := by
  unfold decode_frame
  rw [if_neg (by simp only [List.length_cons]; omega)]
  simp only [List.getD_cons_succ, List.getD_cons_zero]
  rw [if_neg (by omega)]
  rw [Nat.mod_eq_of_lt (by omega : len < 128)]
  rw [if_neg (by omega), if_neg (by omega)]
  show decode_payload (b0 :: len :: payload) 2 len = .frame (len + 2) payload
  have hres := decode_payload_cases (b0 :: len :: payload) 2 len
    (by simp only [List.length_cons]; omega)
    (by simp only [List.length_cons]; omega) (by omega)
  rw [(hres.1 (by omega)).2 (by simp only [List.length_cons]; omega)]
  show DecodeResult.frame (2 + len) (payload.take len) = .frame (len + 2) payload
  rw [← hplen, List.take_length, Nat.add_comm]

/-! ## Claim C7 — frame encode/decode round trip -/

/-- C7: for every payload of at most 125 bytes, `encode_text_frame` writes
exactly `len + 6` bytes, and `decode_frame`, run after first un-masking
the encoded frame (XOR of the payload with the 4-byte mask key, mask bit
cleared, key removed), yields exactly the original payload, consuming
`len + 2` bytes of the unmasked frame. -/
theorem C7_frame_roundtrip (X : List Nat) (hlen : X.length ≤ 125)
    (_hbytes : ∀ b ∈ X, b < 256) :
    (encode_text_frame X).length = X.length + 6 ∧
    decode_frame (unmask_client_frame (encode_text_frame X)) =
      .frame (X.length + 2) X := by
  have h126 : X.length < 126 := by omega
  have henc : encode_text_frame X =
      0x81 :: (0x80 ||| X.length) :: 1 :: 2 :: 3 :: 4 :: maskBytes [1, 2, 3, 4] 0 X := by
    unfold encode_text_frame
    rw [if_pos h126]
  constructor
  · rw [henc]
    simp [maskBytes_length]
  · rw [henc]
    rw [show unmask_client_frame (0x81 :: (0x80 ||| X.length) :: 1 :: 2 :: 3 :: 4 ::
        maskBytes [1, 2, 3, 4] 0 X) = 0x81 :: ((0x80 ||| X.length) % 128) ::
        maskBytes [1, 2, 3, 4] 0 (maskBytes [1, 2, 3, 4] 0 X) from rfl]
    rw [maskBytes_involutive]
    rw [show (0x80 ||| X.length) % 128 = X.length from by
      rw [lor128_eq _ h126]; omega]
    exact decode_frame_short 0x81 X.length X h126 rfl

/-- Witness for C7 on the spec's own `"ping"` example. -/
theorem C7_frame_roundtrip_witness :
    (encode_text_frame [112, 105, 110, 103]).length = [112, 105, 110, 103].length + 6 ∧
    decode_frame (unmask_client_frame (encode_text_frame [112, 105, 110, 103])) =
      .frame ([112, 105, 110, 103].length + 2) [112, 105, 110, 103] :=
  C7_frame_roundtrip [112, 105, 110, 103] (by norm_num) (by decide)

/-- Every run of `decode_frame` either stops early (`needMore` / `err`) or
reaches the split tail `decode_payload` with one of the three header
lengths, a bounded payload length, and (for the 64-bit form) the recorded
length field. -/
theorem decode_frame_char (buf : List Nat) (hbytes : ∀ b ∈ buf, b < 256) :
    decode_frame buf = .needMore ∨
    decode_frame buf = .err "Server sent masked frame (protocol violation)" ∨
    ∃ hd pl, decode_frame buf = decode_payload buf hd pl ∧ hd ≤ buf.length ∧
      pl < 2 ^ 64 ∧
      ((hd = 2 ∧ pl ≤ 127) ∨ (hd = 4 ∧ pl ≤ 65535) ∨
        (hd = 10 ∧ buf.getD 1 0 % 128 = 127 ∧ pl = be64 ((buf.drop 2).take 8))) := by
  by_cases hl2 : buf.length < 2
  · left
    simp only [decode_frame]
    rw [if_pos hl2]
  by_cases hmask : 128 ≤ buf.getD 1 0
  · right; left
    simp only [decode_frame]
    rw [if_neg hl2, if_pos hmask]
  by_cases h126 : buf.getD 1 0 % 128 = 126
  · by_cases hl4 : buf.length < 4
    · left
      simp only [decode_frame]
      rw [if_neg hl2, if_neg hmask, if_pos h126, if_pos hl4]
    · right; right
      refine ⟨4, be16 (buf.getD 2 0) (buf.getD 3 0), ?_, by omega, ?_, ?_⟩
      · simp only [decode_frame]
        rw [if_neg hl2, if_neg hmask, if_pos h126, if_neg hl4]
      · have hb2 : buf.getD 2 0 < 256 := by
          rw [List.getD_eq_getElem buf 0 (by omega)]
          exact hbytes _ (List.getElem_mem _)
        have hb3 : buf.getD 3 0 < 256 := by
          rw [List.getD_eq_getElem buf 0 (by omega)]
          exact hbytes _ (List.getElem_mem _)
        unfold be16
        omega
      · refine Or.inr (Or.inl ⟨rfl, ?_⟩)
        have hb2 : buf.getD 2 0 < 256 := by
          rw [List.getD_eq_getElem buf 0 (by omega)]
          exact hbytes _ (List.getElem_mem _)
        have hb3 : buf.getD 3 0 < 256 := by
          rw [List.getD_eq_getElem buf 0 (by omega)]
          exact hbytes _ (List.getElem_mem _)
        unfold be16
        omega
  · by_cases h127 : buf.getD 1 0 % 128 = 127
    · by_cases hl10 : buf.length < 10
      · left
        simp only [decode_frame]
        rw [if_neg hl2, if_neg hmask, if_neg h126, if_pos h127, if_pos hl10]
      · right; right
        have hpl : be64 ((buf.drop 2).take 8) < 2 ^ 64 := by
          refine be64_lt _ ?_ ?_
          · intro b hb
            exact hbytes b (List.drop_subset _ _ (List.take_subset _ _ hb))
          · simp
        refine ⟨10, be64 ((buf.drop 2).take 8), ?_, by omega, hpl,
          Or.inr (Or.inr ⟨rfl, h127, rfl⟩)⟩
        simp only [decode_frame]
        rw [if_neg hl2, if_neg hmask, if_neg h126, if_pos h127, if_neg hl10]
    · right; right
      have hpl : buf.getD 1 0 % 128 < 128 := Nat.mod_lt _ (by norm_num)
      refine ⟨2, buf.getD 1 0 % 128, ?_, by omega, by omega,
        Or.inl ⟨rfl, by omega⟩⟩
      simp only [decode_frame]
      rw [if_neg hl2, if_neg hmask, if_neg h126, if_neg h127]

/-! ## Claim C9 — decode_frame totality and bounds -/

/-- C9 counterexample: a 12-byte buffer in the 64-bit length form whose
length field is `2⁶⁴ − 5`.  The `usize` addition
`total_len = header_len + payload_len` (framing.rs line 47) wraps to 5, so
the buffer-length guard passes, and the payload split
(`split_at_mut(payload_len)`, line 64) panics. -/
theorem C9_decode_panic_counterexample :
    decode_frame [129, 127, 255, 255, 255, 255, 255, 255, 255, 251, 0, 0] =
      .panic := by
  decide

/-- C9 as amended: `decode_frame` never reads out of bounds — whenever it
returns a frame, `consumed ≤ buf.len`, the payload is the in-bounds
sub-slice of the consumed region, and `consumed − payload.len` is the
header length (2, 4 or 10) — and it never panics *except* on 64-bit-form
frames whose length field is at least `2⁶⁴ − 10`, where the `usize`
addition `header_len + payload_len` wraps and the payload split panics. -/
theorem C9_decode_frame_safe (buf : List Nat) (hbytes : ∀ b ∈ buf, b < 256)
    (husize : buf.length < 2 ^ 64) :
    (decode_frame buf = .panic →
      10 ≤ buf.length ∧ buf.getD 1 0 % 128 = 127 ∧
      2 ^ 64 - 10 ≤ be64 ((buf.drop 2).take 8)) ∧
    (∀ c p, decode_frame buf = .frame c p →
      c ≤ buf.length ∧ p.length ≤ c ∧
      p = (buf.drop (c - p.length)).take p.length ∧
      (c - p.length = 2 ∨ c - p.length = 4 ∨ c - p.length = 10)) := by
  rcases decode_frame_char buf hbytes with h | h | ⟨hd, pl, heq, hh, hpl, hform⟩
  · rw [h]
    exact ⟨fun hx => (by cases hx), fun c p hx => (by cases hx)⟩
  · rw [h]
    exact ⟨fun hx => (by cases hx), fun c p hx => (by cases hx)⟩
  · have hc := decode_payload_cases buf hd pl hh husize hpl
    by_cases hwrap : hd + pl < 2 ^ 64
    · have hnw := hc.1 hwrap
      constructor
      · intro hp
        by_cases hfit : buf.length < hd + pl
        · rw [heq, hnw.1 hfit] at hp; cases hp
        · rw [heq, hnw.2 (by omega)] at hp; cases hp
      · intro c p hfr
        by_cases hfit : buf.length < hd + pl
        · rw [heq, hnw.1 hfit] at hfr; cases hfr
        · rw [heq, hnw.2 (by omega)] at hfr
          have hc1 : hd + pl = c := by cases hfr; rfl
          have hp1 : (buf.drop hd).take pl = p := by cases hfr; rfl
          have hplen : p.length = pl := by
            rw [← hp1, List.length_take, List.length_drop]
            exact Nat.min_eq_left (by omega)
          have hhd : c - p.length = hd := by omega
          refine ⟨by omega, by omega, ?_, ?_⟩
          · rw [hplen, show c - pl = hd from by omega, ← hp1]
          · rw [hhd]
            rcases hform with ⟨h1, _⟩ | ⟨h1, _⟩ | ⟨h1, _⟩ <;> simp [h1]
    · have hpan := hc.2 (by omega)
      constructor
      · intro _
        rcases hform with ⟨h1, h2⟩ | ⟨h1, h2⟩ | ⟨h1, h2, h3⟩
        · omega
        · omega
        · refine ⟨by omega, h2, by omega⟩
      · intro c p hfr
        rw [heq, hpan] at hfr
        cases hfr

/-- Witness for the amended C9 on a complete 2-byte-header frame. -/
theorem C9_decode_frame_safe_witness :
    4 ≤ [129, 2, 65, 66].length ∧ [65, 66].length ≤ 4 ∧
    [65, 66] = (([129, 2, 65, 66].drop (4 - [65, 66].length)).take [65, 66].length) ∧
    (4 - [65, 66].length = 2 ∨ 4 - [65, 66].length = 4 ∨ 4 - [65, 66].length = 10) :=
  (C9_decode_frame_safe [129, 2, 65, 66] (by decide) (by norm_num)).2 4 [65, 66]
    (by decide)

/-! ## Strategy lemmas -/

theorem buy_side_cases (mm : MarketMaker) (t q : ℚ) :
    (mm.buy_side_actions t q).1 =
        { mm with has_active_buy := true, active_buy_price := t } ∨
    (mm.buy_side_actions t q).1 = { mm with active_buy_price := t } ∨
    (mm.buy_side_actions t q).1 = mm := by
  unfold MarketMaker.buy_side_actions
  split_ifs <;> simp

theorem sell_side_cases (mm : MarketMaker) (t q : ℚ) :
    (mm.sell_side_actions t q).1 =
        { mm with has_active_sell := true, active_sell_price := t } ∨
    (mm.sell_side_actions t q).1 = { mm with active_sell_price := t } ∨
    (mm.sell_side_actions t q).1 = mm := by
  unfold MarketMaker.sell_side_actions
  split_ifs <;> simp

theorem buy_side_nil (mm : MarketMaker) (t q : ℚ)
    (h : (mm.buy_side_actions t q).2 = []) : (mm.buy_side_actions t q).1 = mm := by
  unfold MarketMaker.buy_side_actions at *
  split_ifs at h ⊢ <;> simp_all

theorem sell_side_nil (mm : MarketMaker) (t q : ℚ)
    (h : (mm.sell_side_actions t q).2 = []) : (mm.sell_side_actions t q).1 = mm := by
  unfold MarketMaker.sell_side_actions at *
  split_ifs at h ⊢ <;> simp_all

theorem buy_side_exch (mm : MarketMaker) (t q : ℚ) :
    (mm.buy_side_actions t q).1.last_exch_ts = mm.last_exch_ts := by
  rcases buy_side_cases mm t q with h | h | h <;> rw [h]

theorem sell_side_exch (mm : MarketMaker) (t q : ℚ) :
    (mm.sell_side_actions t q).1.last_exch_ts = mm.last_exch_ts := by
  rcases sell_side_cases mm t q with h | h | h <;> rw [h]

theorem close_branch_exch (mm : MarketMaker) (book : L2OrderBook) (now : ℚ) :
    (mm.close_branch book now).1.last_exch_ts = mm.last_exch_ts := by
  simp only [MarketMaker.close_branch]
  split_ifs <;> rfl

theorem close_branch_none (mm : MarketMaker) (book : L2OrderBook) (now : ℚ)
    (h : (mm.close_branch book now).2 = none) : (mm.close_branch book now).1 = mm := by
  simp only [MarketMaker.close_branch] at h ⊢
  split_ifs at h ⊢ <;> first | rfl | cases h

theorem close_branch_inv (mm : MarketMaker) (book : L2OrderBook) (now : ℚ)
    (hinv : StrategyInv mm) : StrategyInv (mm.close_branch book now).1 := by
  simp only [MarketMaker.close_branch]
  split_ifs <;> first | exact hinv | exact ⟨hinv.1, fun hx => by simp at hx⟩

theorem quote_branch_exch (mm : MarketMaker) (book : L2OrderBook) (now : ℚ) :
    (mm.quote_branch book now).1.last_exch_ts = mm.last_exch_ts := by
  simp only [MarketMaker.quote_branch]
  split_ifs <;>
    first
      | rfl
      | (change ((MarketMaker.buy_side_actions _ _ _).1.sell_side_actions _ _).1.last_exch_ts = _
         rw [sell_side_exch, buy_side_exch])

theorem quote_branch_core (mm : MarketMaker) (book : L2OrderBook) (now : ℚ) :
    (mm.quote_branch book now).2 = none →
    coreState (mm.quote_branch book now).1 = coreState mm := by
  simp only [MarketMaker.quote_branch]
  split_ifs
  all_goals
    first
      | (intro _; rfl)
      | (intro h
         simp at h
         done)
      | (intro hdiscard
         rename_i hnil
         obtain ⟨hb, hs⟩ := List.append_eq_nil.mp hnil
         rw [sell_side_nil _ _ _ hs, buy_side_nil _ _ _ hb]
         rfl)

theorem rustClamp_le (x lo hi : ℚ) : rustClamp x lo hi ≤ hi := min_le_right _ _

theorem rustClamp01_nonneg (x : ℚ) : 0 ≤ rustClamp x 0 1 :=
  le_min (le_max_right x 0) zero_le_one

theorem rustClamp01_le_one (x : ℚ) : rustClamp x 0 1 ≤ 1 := min_le_right _ _

/-- The final spread of the quoting branch is at most 1.2%. -/
theorem final_spread_le (a c : ℚ) :
    max (1/250 + rustClamp a 0 1 * (1/100 - 1/250)) (rustClamp c 0 (3/250)) ≤ 3/250 := by
  apply max_le
  · have h1 := rustClamp01_le_one a
    have h0 := rustClamp01_nonneg a
    nlinarith
  · exact rustClamp_le _ _ _

/-- A rounded buy target computed from a bid of at least one price tick is
positive. -/
theorem rustRound_target_pos (p fs : ℚ) (hp : 1/100 ≤ p) (hfs : fs ≤ 3/250) :
    0 < (rustRound (p * (1 - fs) * 100) : ℚ) / 100 := by
  have hx : (247 : ℚ)/250 ≤ p * (1 - fs) * 100 := by nlinarith
  have h0 : (0:ℚ) ≤ p * (1 - fs) * 100 := by linarith
  unfold rustRound
  rw [if_pos h0]
  have h1 : (1 : ℤ) ≤ ⌊p * (1 - fs) * 100 + 1/2⌋ := by
    rw [Int.le_floor]
    push_cast
    linarith
  have h2 : (1 : ℚ) ≤ (⌊p * (1 - fs) * 100 + 1/2⌋ : ℚ) := by exact_mod_cast h1
  linarith

/-- The bid-wall scan only ever raises a positive target. -/
theorem wallScanBids_pos (levels : List Level) (mid t : ℚ) (ht : 0 < t) :
    0 < wallScanBids levels mid t := by
  induction levels with
  | nil => exact ht
  | cons lvl rest ih =>
    simp only [wallScanBids]
    split_ifs with hp hq hu
    · exact ht
    · exact lt_trans ht hu.1
    · exact ih
    · exact ih

theorem buy_side_inv (mm : MarketMaker) (t q : ℚ) (ht : 0 < t)
    (hinv : StrategyInv mm) : StrategyInv (mm.buy_side_actions t q).1 := by
  rcases buy_side_cases mm t q with h | h | h <;> rw [h] <;>
    first
      | exact hinv
      | exact ⟨hinv.1, fun _ => ht⟩

theorem sell_side_inv (mm : MarketMaker) (t q : ℚ)
    (hinv : StrategyInv mm) : StrategyInv (mm.sell_side_actions t q).1 := by
  rcases sell_side_cases mm t q with h | h | h <;> rw [h] <;> exact hinv

theorem quote_branch_inv (mm : MarketMaker) (book : L2OrderBook) (now : ℚ)
    (hbid : 1/100 ≤ (book.bids.getD 0 default).price)
    (hinv : StrategyInv mm) : StrategyInv (mm.quote_branch book now).1 := by
  simp only [MarketMaker.quote_branch]
  split_ifs
  all_goals
    first
      | exact hinv
      | exact sell_side_inv _ _ _ (buy_side_inv _ _ _
          (wallScanBids_pos _ _ _ (rustRound_target_pos _ _ hbid (final_spread_le _ _)))
          hinv)

theorem on_tick_exch (mm : MarketMaker) (book : L2OrderBook) (ts : Nat) (now : ℚ)
    (h : 0 < ts) : (mm.on_tick book ts now).1.last_exch_ts = ts := by
  simp only [MarketMaker.on_tick, h, true_and, if_true]
  split_ifs with h1 h2
  · exact h1.symm
  · rw [close_branch_exch]
  · rw [quote_branch_exch]

/-! ## Claim C3 — batch de-duplication -/

/-- C3: for every book and `exch_ts > 0`, a second `on_tick` call with the
same `exch_ts` returns `None`; more generally, whenever `exch_ts > 0` and
`exch_ts` equals the stored `last_exch_ts`, `on_tick` returns `None`. -/
theorem C3_batch_dedup :
    (∀ (mm : MarketMaker) (book book2 : L2OrderBook) (ts : Nat) (now now2 : ℚ),
      0 < ts → ((mm.on_tick book ts now).1.on_tick book2 ts now2).2 = none) ∧
    (∀ (mm : MarketMaker) (book : L2OrderBook) (ts : Nat) (now : ℚ),
      0 < ts → ts = mm.last_exch_ts → (mm.on_tick book ts now).2 = none) := by
  have hbase : ∀ (mm : MarketMaker) (book : L2OrderBook) (ts : Nat) (now : ℚ),
      0 < ts → ts = mm.last_exch_ts → (mm.on_tick book ts now).2 = none := by
    intro mm book ts now h1 h2
    simp only [MarketMaker.on_tick]
    rw [if_pos ⟨h1, h2⟩]
  refine ⟨?_, hbase⟩
  intro mm book book2 ts now now2 h
  exact hbase _ _ _ _ h (on_tick_exch mm book ts now h).symm

/-- Witness for C3 at a concrete state and book. -/
theorem C3_batch_dedup_witness :
    ((mmC1.on_tick bookC1 5 0).1.on_tick bookC1 5 0).2 = none ∧
    (({ mmC1 with last_exch_ts := 5 } : MarketMaker).on_tick bookC1 5 0).2 = none :=
  ⟨C3_batch_dedup.1 mmC1 bookC1 bookC1 5 0 0 (by norm_num),
   C3_batch_dedup.2 _ bookC1 5 0 (by norm_num) rfl⟩

/-! ## Claim C10 — `on_tick` returning None leaves quoting state unchanged -/

/-- C10: whenever `on_tick` returns `None`, the quoting and position state
— position, entry price, both active-order flags and prices, and both
link ids (the components of `coreState`) — is unchanged; only bookkeeping
fields (tick counter, `last_exch_ts`, tick-velocity EMA, timestamps) may
change. -/
theorem C10_on_tick_none_frame (mm : MarketMaker) (book : L2OrderBook) (ts : Nat)
    (now : ℚ) :
    (mm.on_tick book ts now).2 = none →
    coreState (mm.on_tick book ts now).1 = coreState mm := by
  by_cases hts : 0 < ts
  · simp only [MarketMaker.on_tick, hts, true_and, if_true]
    split_ifs with h1 h2
    · intro _; rfl
    · intro h; rw [close_branch_none _ _ _ h]; rfl
    · intro h; exact (quote_branch_core _ book now h).trans rfl
  · simp only [MarketMaker.on_tick, hts, false_and, if_false]
    split_ifs with h1
    · intro h; rw [close_branch_none _ _ _ h]; rfl
    · intro h; exact (quote_branch_core _ book now h).trans rfl

/-- Witness for C10: an `on_tick` on an empty book returns `None`. -/
theorem C10_on_tick_none_frame_witness :
    coreState (mmC1.on_tick L2OrderBook.new 3 7).1 = coreState mmC1 :=
  C10_on_tick_none_frame mmC1 L2OrderBook.new 3 7 (by
    norm_num [MarketMaker.on_tick, MarketMaker.quote_branch, L2OrderBook.new, mmC1,
      List.replicate, default_level])

/-! ## Claim C4 — the StrategyState invariant -/

/-- C4 counterexample: a closing fill.  From a long `+0.2 @ 100` state
satisfying the invariant, `on_fill("Sell", 0.2, 100)` zeroes the position
and the entry price but stamps `last_trade_ts = Some(now)`
(market_maker.rs line 101), violating the `last_trade_ts = none` clause
of the flat-state invariant. -/
theorem string_sell_ne_buy : ("Sell" : String) ≠ "Buy" := by decide

theorem C4_invariant_counterexample :
    StrategyInv mmC4 ∧ ¬ StrategyInv (mmC4.on_fill "Sell" (1/5) 100 5) := by
  constructor
  · constructor
    · intro h
      exact absurd h (by norm_num [mmC4, abs_of_pos])
    · intro h
      simp [mmC4] at h
  · intro h
    have heval : mmC4.on_fill "Sell" (1/5) 100 5 =
        { mmC4 with position := 0, entry_price := 0, last_trade_ts := some 5 } := by
      norm_num [MarketMaker.on_fill, mmC4, string_sell_ne_buy]
    rw [heval] at h
    have h2 := (h.1 (by norm_num)).2
    simp at h2

theorem on_fill_weak_inv (mm : MarketMaker) (side : String) (qty px now : ℚ)
    (h : StrategyInvWeak mm) : StrategyInvWeak (mm.on_fill side qty px now) := by
  simp only [MarketMaker.on_fill]
  split_ifs
  all_goals
    first
      | exact ⟨fun _ => rfl, h.2⟩
      | exact ⟨fun hf => absurd hf (by assumption), h.2⟩

theorem sync_position_inv (mm : MarketMaker) (q p now : ℚ)
    (h : StrategyInv mm) : StrategyInv (mm.sync_position q p now) := by
  simp only [MarketMaker.sync_position]
  split_ifs
  all_goals
    first
      | exact h
      | exact ⟨fun _ => ⟨rfl, rfl⟩, h.2⟩
      | exact ⟨fun hf => absurd hf (by assumption), h.2⟩

theorem on_order_cancel_inv (mm : MarketMaker) (side : String)
    (h : StrategyInv mm) : StrategyInv (mm.on_order_cancel side) := by
  simp only [MarketMaker.on_order_cancel]
  split_ifs
  all_goals
    first
      | exact h
      | exact ⟨h.1, fun hx => by simp at hx⟩

theorem reset_order_inv (mm : MarketMaker) (side : String) (ts : Nat)
    (h : StrategyInv mm) : StrategyInv (mm.reset_order side ts) := by
  simp only [MarketMaker.reset_order]
  split_ifs
  all_goals
    first
      | exact h
      | exact ⟨h.1, fun hx => by simp at hx⟩

theorem on_tick_inv (mm : MarketMaker) (book : L2OrderBook) (ts : Nat) (now : ℚ)
    (hbid : 1/100 ≤ (book.bids.getD 0 default).price)
    (h : StrategyInv mm) : StrategyInv (mm.on_tick book ts now).1 := by
  by_cases hts : 0 < ts
  · simp only [MarketMaker.on_tick, hts, true_and, if_true]
    split_ifs with h1 h2
    · exact h
    · exact close_branch_inv _ _ _ h
    · exact quote_branch_inv _ _ _ hbid h
  · simp only [MarketMaker.on_tick, hts, false_and, if_false]
    split_ifs with h1
    · exact close_branch_inv _ _ _ h
    · exact quote_branch_inv _ _ _ hbid h

/-- C4 as amended: `sync_position`, `on_order_cancel` and `reset_order`
preserve the full invariant; `on_fill` preserves it only with the
`last_trade_ts` clause dropped (it stamps `last_trade_ts` even on a fill
that closes the position — the counterexample above); `on_tick` preserves
the full invariant provided the top-of-book bid is at least one price
tick (0.01) — with a sub-tick bid the 2-decimal rounding can floor the
buy target to 0 while still marking `has_active_buy`. -/
theorem C4_invariant_amended :
    (∀ (mm : MarketMaker) (side : String) (qty px now : ℚ),
      StrategyInvWeak mm → StrategyInvWeak (mm.on_fill side qty px now)) ∧
    (∀ (mm : MarketMaker) (q p now : ℚ),
      StrategyInv mm → StrategyInv (mm.sync_position q p now)) ∧
    (∀ (mm : MarketMaker) (side : String),
      StrategyInv mm → StrategyInv (mm.on_order_cancel side)) ∧
    (∀ (mm : MarketMaker) (side : String) (ts : Nat),
      StrategyInv mm → StrategyInv (mm.reset_order side ts)) ∧
    (∀ (mm : MarketMaker) (book : L2OrderBook) (ts : Nat) (now : ℚ),
      1/100 ≤ (book.bids.getD 0 default).price →
      StrategyInv mm → StrategyInv (mm.on_tick book ts now).1) :=
  ⟨fun mm side qty px now h => on_fill_weak_inv mm side qty px now h,
   fun mm q p now h => sync_position_inv mm q p now h,
   fun mm side h => on_order_cancel_inv mm side h,
   fun mm side ts h => reset_order_inv mm side ts h,
   fun mm book ts now hbid h => on_tick_inv mm book ts now hbid h⟩

/-- Witness for the amended C4 at concrete inputs. -/
theorem C4_invariant_amended_witness :
    StrategyInvWeak (mmC4.on_fill "Sell" (1/5) 100 5) ∧
    StrategyInv (mmC4.sync_position 0 0 5) ∧
    StrategyInv (mmC4.on_order_cancel "Buy") ∧
    StrategyInv (mmC4.reset_order "Buy" 123456) ∧
    StrategyInv (mmC4.on_tick bookC1 3 7).1 := by
  have hinv : StrategyInv mmC4 :=
    ⟨fun hf => absurd hf (by norm_num [mmC4, abs_of_pos]), fun hx => by simp [mmC4] at hx⟩
  have hweak : StrategyInvWeak mmC4 :=
    ⟨fun hf => absurd hf (by norm_num [mmC4, abs_of_pos]), fun hx => by simp [mmC4] at hx⟩
  exact ⟨C4_invariant_amended.1 mmC4 "Sell" (1/5) 100 5 hweak,
    C4_invariant_amended.2.1 mmC4 0 0 5 hinv,
    C4_invariant_amended.2.2.1 mmC4 "Buy" hinv,
    C4_invariant_amended.2.2.2.1 mmC4 "Buy" 123456 hinv,
    C4_invariant_amended.2.2.2.2 mmC4 bookC1 3 7
      (by norm_num [bookC1]) hinv⟩

/-! ## Claim C1 — requote on shock -/

/-- C1 counterexample: in the shock-requote scenario (`last_update_mid =
100`, `bid = 100.6`, `ask = 100.7`, no inventory, 50 TPS) the emitted
`CreateOrder` prices are `99.39` and `101.91` — `on_tick` rounds targets
to **2** decimal places (`* 100.0).round() / 100.0`, market_maker.rs
lines 310-311) — whereas the claim's 3-decimal prices would be
`round(100.6·0.988, 3dp) = 99.393` and `round(100.7·1.012, 3dp) =
101.908`. -/
theorem C1_requote_shock_counterexample :
    (mmC1.on_tick bookC1 7 20000).2 =
      some [⟨.CreateOrder (9939/100) (1/5) "Buy" "b-1"⟩,
            ⟨.CreateOrder (10191/100) (1/5) "Sell" "s-1"⟩] ∧
    (rustRound (503/5 * (1 - 3/250) * 1000) : ℚ) / 1000 = 99393/1000 ∧
    (rustRound (1007/10 * (1 + 3/250) * 1000) : ℚ) / 1000 = 101908/1000 ∧
    (9939/100 : ℚ) ≠ 99393/1000 ∧
    (10191/100 : ℚ) ≠ 101908/1000 := by
  refine ⟨?_, by norm_num [rustRound], by norm_num [rustRound], by norm_num, by norm_num⟩
  norm_num [mmC1, bookC1, MarketMaker.on_tick, MarketMaker.quote_branch,
    MarketMaker.close_branch, MarketMaker.buy_side_actions,
    MarketMaker.sell_side_actions, wallScanBids, wallScanAsks,
    rustRound, rustClamp, List.replicate, default_level, abs_of_pos, max_def, min_def]
  intro h
  simp at h

/-- C1 as amended: same scenario and spreads (`change_pct = 0.0065 >
0.004`, `shock_spread` clamped to `0.012`, `final_spread = 0.012`), but
the targets are rounded to the 0.01 price tick (2 decimal places):
`CreateOrder{Buy, round(100.6·0.988, 2dp) = 99.39, 0.2}` and
`CreateOrder{Sell, round(100.7·1.012, 2dp) = 101.91, 0.2}`. -/
theorem C1_requote_shock_amended :
    (mmC1.on_tick bookC1 7 20000).2 =
      some [⟨.CreateOrder (9939/100) (1/5) "Buy" "b-1"⟩,
            ⟨.CreateOrder (10191/100) (1/5) "Sell" "s-1"⟩] ∧
    (9939/100 : ℚ) = (rustRound (503/5 * (1 - 3/250) * 100) : ℚ) / 100 ∧
    (10191/100 : ℚ) = (rustRound (1007/10 * (1 + 3/250) * 100) : ℚ) / 100 := by
  refine ⟨?_, by norm_num [rustRound], by norm_num [rustRound]⟩
  norm_num [mmC1, bookC1, MarketMaker.on_tick, MarketMaker.quote_branch,
    MarketMaker.close_branch, MarketMaker.buy_side_actions,
    MarketMaker.sell_side_actions, wallScanBids, wallScanAsks,
    rustRound, rustClamp, List.replicate, default_level, abs_of_pos, max_def, min_def]
  intro h
  simp at h

/-! ## Claim C2 — take-profit close -/

/-- C2: from a long `+0.2 @ 100.000` with `bid = 100.35 / ask = 100.40`,
the unrealized gain exceeds the `+0.3%` take-profit
(`100.35 > 100 · 1.003`), so `on_tick` emits exactly
`[CancelAll, ClosePosition{0.2, "Sell"}]` and clears both
`has_active_buy` and `has_active_sell`. -/
theorem C2_take_profit_close :
    mmC2.on_tick bookC2 5 1000 =
      ({ mmC2 with tick_counter := 1, last_exch_ts := 5,
                   has_active_buy := false, has_active_sell := false },
       some [⟨.CancelAll⟩, ⟨.ClosePosition (1/5) "Sell"⟩]) := by
  norm_num [MarketMaker.on_tick, MarketMaker.close_branch, mmC2, bookC2,
    List.replicate, default_level, abs_of_pos]

/-! ## Claim C8 — venue error-code dispatch -/

/-- C8 counterexample: `retCode = 10404` on the private stream triggers
`sync_position(0,0)` plus clearing both flags (main.rs lines 736-741),
not a side reset as the claim states; and `retCode = 10006` on the trade
stream is only logged (main.rs lines 962-989 handle just 110017 and
110001), not followed by a 10-second sleep. -/
theorem C8_error_dispatch_counterexample :
    private_stream_dispatch ⟨10404, "order.amend", "", some "b-1"⟩ ≠
      claimed_dispatch ⟨10404, "order.amend", "", some "b-1"⟩ ∧
    trade_stream_dispatch ⟨10006, "order.create", "", some "b-1"⟩ ≠
      claimed_dispatch ⟨10006, "order.create", "", some "b-1"⟩ := by
  constructor <;> decide

/-- C8 as amended, following the code: on the private stream, a side
reset (side inferred from `reqId` by the substring/prefix rules of
`sideFromReqId`) happens for 110001, 10001, 110072, or any failed
`order.create`, except when `retMsg` contains "not modified"; 110017
**and** 10404 trigger `sync_position(0,0)` plus clearing both flags;
10006 triggers the 10-second sleep.  The trade stream handles only
110017 (sync + clear) and 110001 (side reset); every other non-zero code
is only logged on either stream. -/
theorem C8_error_dispatch_amended :
    (∀ e : VenueError, e.retCode ≠ 0 →
      containsSub e.retMsg "not modified" = false →
      (e.retCode = 110001 ∨ e.retCode = 10001 ∨ e.retCode = 110072 ∨
        e.op = "order.create") →
      (private_stream_dispatch e).reset_side =
        (match e.reqId with | some r => sideFromReqId r | none => none)) ∧
    (∀ e : VenueError,
      (e.retCode = 0 ∨
        (e.retCode ≠ 110001 ∧ e.retCode ≠ 10001 ∧ e.retCode ≠ 110072 ∧
          e.op ≠ "order.create") ∨
        containsSub e.retMsg "not modified" = true) →
      (private_stream_dispatch e).reset_side = none) ∧
    (∀ e : VenueError, (private_stream_dispatch e).sync_zero_clear = true ↔
      e.retCode ≠ 0 ∧ (e.retCode = 110017 ∨ e.retCode = 10404)) ∧
    (∀ e : VenueError, (private_stream_dispatch e).sleep_10s = true ↔
      e.retCode = 10006) ∧
    (∀ e : VenueError, e.retCode = 110017 →
      trade_stream_dispatch e = ⟨none, true, false⟩) ∧
    (∀ e : VenueError, e.retCode = 110001 →
      trade_stream_dispatch e =
        ⟨(match e.reqId with | some r => sideFromReqId r | none => none),
          false, false⟩) ∧
    (∀ e : VenueError, e.retCode ≠ 110017 → e.retCode ≠ 110001 →
      trade_stream_dispatch e = ⟨none, false, false⟩) := by
  refine ⟨?_, ?_, ?_, ?_, ?_, ?_, ?_⟩
  · intro e h0 hnm h3
    simp only [private_stream_dispatch]
    rw [if_neg h0]
    have hcond : ((e.op == "order.create" || decide (e.retCode = 110001) ||
        decide (e.retCode = 10001) || decide (e.retCode = 110072)) &&
          !containsSub e.retMsg "not modified") = true := by
      rw [hnm]
      simp only [Bool.not_false, Bool.and_true]
      rcases h3 with h | h | h | h <;> simp [h]
    rw [if_pos hcond]
  · intro e h
    simp only [private_stream_dispatch]
    rcases h with h0 | hother | hnm
    · rw [if_pos h0]
    · by_cases h0 : e.retCode = 0
      · rw [if_pos h0]
      · rw [if_neg h0]
        rw [if_neg ?_]
        simp only [Bool.and_eq_true, Bool.or_eq_true, decide_eq_true_eq, beq_iff_eq]
        intro hc
        rcases hc.1 with ((hx | hx) | hx) | hx
        · exact hother.2.2.2 hx
        · exact hother.1 hx
        · exact hother.2.1 hx
        · exact hother.2.2.1 hx
    · by_cases h0 : e.retCode = 0
      · rw [if_pos h0]
      · rw [if_neg h0]
        rw [if_neg ?_]
        rw [hnm]
        simp
  · intro e
    by_cases h0 : e.retCode = 0
    · simp only [private_stream_dispatch]
      rw [if_pos h0]
      simp [h0]
    · simp only [private_stream_dispatch]
      rw [if_neg h0]
      simp [h0]
  · intro e
    by_cases h0 : e.retCode = 0
    · simp only [private_stream_dispatch]
      rw [if_pos h0]
      simp
      omega
    · simp only [private_stream_dispatch]
      rw [if_neg h0]
      simp
  · intro e h
    simp only [trade_stream_dispatch]
    rw [if_neg (by omega), if_pos h]
  · intro e h
    simp only [trade_stream_dispatch]
    rw [if_neg (by omega), if_neg (by omega), if_pos h]
  · intro e h17 h01
    by_cases h0 : e.retCode = 0
    · simp only [trade_stream_dispatch]
      rw [if_pos h0]
    · simp only [trade_stream_dispatch]
      rw [if_neg h0, if_neg h17, if_neg h01]

/-- Witness for the amended C8 at concrete responses. -/
theorem C8_error_dispatch_amended_witness :
    (private_stream_dispatch ⟨110001, "order.amend", "", some "b-9"⟩).reset_side =
      (match (some "b-9" : Option String) with
       | some r => sideFromReqId r | none => none) ∧
    (private_stream_dispatch ⟨8888, "order.amend", "ok", some "b-9"⟩).reset_side =
      none ∧
    ((private_stream_dispatch ⟨10404, "order.amend", "", none⟩).sync_zero_clear =
        true ↔ (10404 : Int) ≠ 0 ∧ ((10404 : Int) = 110017 ∨ (10404 : Int) = 10404)) ∧
    ((private_stream_dispatch ⟨10006, "order.amend", "", none⟩).sleep_10s = true ↔
      (10006 : Int) = 10006) ∧
    trade_stream_dispatch ⟨110017, "", "", none⟩ = ⟨none, true, false⟩ ∧
    trade_stream_dispatch ⟨110001, "", "", some "s-3"⟩ =
      ⟨(match (some "s-3" : Option String) with
        | some r => sideFromReqId r | none => none), false, false⟩ ∧
    trade_stream_dispatch ⟨7777, "", "", none⟩ = ⟨none, false, false⟩ := by
  have h := C8_error_dispatch_amended
  exact ⟨h.1 _ (by decide) (by decide) (by decide),
    h.2.1 _ (by decide),
    h.2.2.1 _,
    h.2.2.2.1 _,
    h.2.2.2.2.1 _ (by decide),
    h.2.2.2.2.2.1 _ (by decide),
    h.2.2.2.2.2.2 _ (by decide) (by decide)⟩

end HFT
